import Mathlib

/-!
Verification development for the wafflemaker deployment agent.

Rust strings are modelled as lists of characters (`Str`); for the commit
hashes handled by `PlanUpdate` each character stands for one byte, which is
faithful because the code slices those strings by byte index and the values
are ASCII hex digests.  Fallible operations are modelled with `Except Unit`
or `Option`; the outcomes of external collaborators (Docker engine, Vault,
the k/v DNS store, the RNG) are supplied by explicit oracle structures so
that every run of a job is a pure function of its inputs.
-/

namespace Wafflemaker

/-- Rust `String`/`str` as a list of characters. -/
abbrev Str := List Char

/-- Model of Rust `str::split(sep)` collected into a list
(`name.rs` uses `proper.split('/')`). -/
def splitOnChar (sep : Char) : Str → List Str
  | [] => [[]]
  | c :: rest =>
    if c = sep then [] :: splitOnChar sep rest
    else
      match splitOnChar sep rest with
      | [] => [[c]]
      | cur :: rs => (c :: cur) :: rs

/-- Model of `itertools::join(sep)` / `Vec::join(sep)` for a one-character
separator. -/
def joinSep (sep : Char) : List Str → Str
  | [] => []
  | [s] => s
  | s :: rest => s ++ sep :: joinSep sep rest

theorem splitOnChar_ne_nil (sep : Char) (l : Str) : splitOnChar sep l ≠ [] := by
  induction l with
  | nil => simp [splitOnChar]
  | cons c rest ih =>
    simp only [splitOnChar]
    by_cases h : c = sep
    · simp [h]
    · simp only [h, if_false]
      rcases hs : splitOnChar sep rest with _ | ⟨cur, rs⟩
      · simp
      · simp

theorem splitOnChar_of_not_mem (sep : Char) (l : Str) (h : sep ∉ l) :
    splitOnChar sep l = [l] := by
  induction l with
  | nil => simp [splitOnChar]
  | cons c rest ih =>
    simp only [List.mem_cons, not_or] at h
    have hc : ¬ c = sep := fun hh => h.1 hh.symm
    simp only [splitOnChar, hc, if_false]
    rw [ih h.2]

theorem splitOnChar_append_sep (sep : Char) (s t : Str) (h : sep ∉ s) :
    splitOnChar sep (s ++ sep :: t) = s :: splitOnChar sep t := by
  induction s with
  | nil =>
    simp [splitOnChar]
  | cons c s' ih =>
    simp only [List.mem_cons, not_or] at h
    have hc : ¬ c = sep := fun hh => h.1 hh.symm
    have ih' := ih h.2
    simp only [List.cons_append, splitOnChar, hc, if_false]
    rw [show s'.append (sep :: t) = s' ++ sep :: t from rfl, ih']

/-- Splitting a `/`-join recovers the original segments: the round-trip
property behind the three canonical name forms. -/
theorem splitOnChar_joinSep (sep : Char) (segs : List Str) (h1 : segs ≠ [])
    (h2 : ∀ s ∈ segs, sep ∉ s) : splitOnChar sep (joinSep sep segs) = segs := by
  induction segs with
  | nil => exact absurd rfl h1
  | cons s rest ih =>
    rcases rest with _ | ⟨s2, rest'⟩
    · simp only [joinSep]
      exact splitOnChar_of_not_mem sep s (h2 s (by simp))
    · have hjoin : joinSep sep (s :: s2 :: rest') = s ++ sep :: joinSep sep (s2 :: rest') := rfl
      rw [hjoin, splitOnChar_append_sep sep s _ (h2 s (by simp))]
      rw [ih (by simp) (fun x hx => h2 x (List.mem_cons_of_mem s hx))]

theorem map_joinSep (f : Char → Char) (sep : Char) (segs : List Str) :
    (joinSep sep segs).map f = joinSep (f sep) (segs.map (List.map f)) := by
  induction segs with
  | nil => simp [joinSep]
  | cons s rest ih =>
    rcases rest with _ | ⟨s2, rest'⟩
    · simp [joinSep]
    · have h1 : joinSep sep (s :: s2 :: rest') = s ++ sep :: joinSep sep (s2 :: rest') := rfl
      have h2 : joinSep (f sep) (s.map f :: (s2.map f :: rest'.map (List.map f)))
          = s.map f ++ f sep :: joinSep (f sep) (s2.map f :: rest'.map (List.map f)) := rfl
      simp only [h1, List.map_append, List.map_cons, h2, ih]

/-! ### Service names (`src/wafflemaker/src/service/name.rs`) -/

/-- The three canonical forms of a service name. -/
structure ServiceName where
  proper : Str
  domain : Str
  sanitized : Str
deriving Repr, DecidableEq

/-- `ServiceName::new`: `proper` is the source string, `domain` is
`proper.split('/').rev().join(".")`, `sanitized` is `proper.replace('/', "_")`. -/
def ServiceName.new (name : Str) : ServiceName where
  proper := name
  domain := joinSep '.' (splitOnChar '/' name).reverse
  sanitized := name.map (fun c => if c = '/' then '_' else c)

/-- `Service::name` (`src/wafflemaker/src/service/mod.rs`): the spec file
path relative to the repository root with the extension removed, whose
components are joined by `/` and handed to `ServiceName::new`.  The
components are taken here as the already-split segment list. -/
def serviceNameOfSegments (segs : List Str) : ServiceName :=
  ServiceName.new (joinSep '/' segs)

theorem replaceSlash_of_not_mem (s : Str) (h : '/' ∉ s) :
    s.map (fun c => if c = '/' then '_' else c) = s := by
  induction s with
  | nil => rfl
  | cons c rest ih =>
    simp only [List.mem_cons, not_or] at h
    have hc : ¬ c = '/' := fun hh => h.1 hh.symm
    simp only [List.map_cons, hc, if_false, ih h.2]

theorem mapSegs_eq (f : Char → Char) (segs : List Str)
    (h : ∀ s ∈ segs, s.map f = s) : segs.map (List.map f) = segs := by
  induction segs with
  | nil => rfl
  | cons s rest ih =>
    simp only [List.map_cons, h s (by simp)]
    rw [ih (fun x hx => h x (List.mem_cons_of_mem s hx))]

/-! ### Secret value generation
(`generate_value`, `src/src/processor/jobs/update_service.rs:222-250`) -/

/-- Secret formats (`src/wafflemaker/src/service/secret.rs`). -/
inductive Format
  | alphanumeric
  | base64
  | hex
deriving Repr, DecidableEq

/-- The character set of rand's `Alphanumeric` distribution: `[A-Za-z0-9]`. -/
def alphanumericTable : Str :=
  "ABCDEFGHIJKLMNOPQRSTUVWXYZabcdefghijklmnopqrstuvwxyz0123456789".toList

/-- The standard base64 alphabet used by `base64::encode`. -/
def base64Table : Str :=
  "ABCDEFGHIJKLMNOPQRSTUVWXYZabcdefghijklmnopqrstuvwxyz0123456789+/".toList

/-- The lower-case hex digits used by `hex::encode`. -/
def hexTable : Str := "0123456789abcdef".toList

/-- The RNG (`ChaCha20Rng`) is modelled as a deterministic stream of
naturals: the i-th draw of the generator. -/
abbrev Rng := Nat → Nat

/-- One draw of rand's `Alphanumeric` distribution: a uniformly sampled
member of the 62-character table. -/
def sampleAlphanumeric (rng : Rng) (i : Nat) : Char :=
  alphanumericTable.getD (rng i % 62) 'A'

/-- `RngCore::fill_bytes` for a buffer of `n` bytes. -/
def fillBytes (rng : Rng) (n : Nat) : List Nat :=
  (List.range n).map (fun i => rng i % 256)

/-- `base64::encode` on a byte list: 6-bit groups, big-endian within each
3-byte chunk, `=`-padded. -/
def base64Encode : List Nat → Str
  | [] => []
  | [b1] => [base64Table.getD (b1 / 4 % 64) 'A', base64Table.getD (b1 % 4 * 16) 'A', '=', '=']
  | [b1, b2] =>
    [base64Table.getD (b1 / 4 % 64) 'A', base64Table.getD (b1 % 4 * 16 + b2 / 16 % 16) 'A',
      base64Table.getD (b2 % 16 * 4) 'A', '=']
  | b1 :: b2 :: b3 :: rest =>
    base64Table.getD (b1 / 4 % 64) 'A' ::
      base64Table.getD (b1 % 4 * 16 + b2 / 16 % 16) 'A' ::
        base64Table.getD (b2 % 16 * 4 + b3 / 64 % 4) 'A' ::
          base64Table.getD (b3 % 64) 'A' :: base64Encode rest

/-- `hex::encode` on a byte list: two lower-case hex digits per byte, high
nibble first. -/
def hexEncode (bytes : List Nat) : Str :=
  (bytes.map (fun b => [hexTable.getD (b / 16 % 16) '0', hexTable.getD (b % 16) '0'])).flatten

/-- `generate_value` (`src/src/processor/jobs/update_service.rs:222-250`):
`alphanumeric` takes `length` samples of the `Alphanumeric` distribution;
`base64` fills `length` bytes, base64-encodes and truncates to `length`;
`hex` fills `length / 2` bytes and hex-encodes. -/
def generate_value (format : Format) (length : Nat) (rng : Rng) : Str :=
  match format with
  | .alphanumeric => (List.range length).map (sampleAlphanumeric rng)
  | .base64 => (base64Encode (fillBytes rng length)).take length
  | .hex => hexEncode (fillBytes rng (length / 2))

theorem base64Encode_length : ∀ l : List Nat,
    (base64Encode l).length = 4 * ((l.length + 2) / 3)
  | [] => by simp [base64Encode]
  | [_] => by simp [base64Encode]
  | [_, _] => by simp [base64Encode]
  | _ :: _ :: _ :: rest => by
    have ih := base64Encode_length rest
    simp only [base64Encode, List.length_cons, ih]
    omega

theorem le_four_mul_ceil_div_three (n : Nat) : n ≤ 4 * ((n + 2) / 3) := by
  have h := Nat.div_add_mod (n + 2) 3
  have h2 : (n + 2) % 3 < 3 := Nat.mod_lt _ (by norm_num)
  omega

theorem sampleAlphanumeric_mem (rng : Rng) (i : Nat) :
    sampleAlphanumeric rng i ∈ alphanumericTable := by
  have hlen : alphanumericTable.length = 62 := by decide
  have hlt : rng i % 62 < alphanumericTable.length := by
    rw [hlen]; exact Nat.mod_lt _ (by norm_num)
  unfold sampleAlphanumeric
  rw [List.getD_eq_getElem _ _ hlt]
  exact List.getElem_mem _

theorem hexEncode_length (bytes : List Nat) :
    (hexEncode bytes).length = 2 * bytes.length := by
  induction bytes with
  | nil => rfl
  | cons b rest ih =>
    simp only [hexEncode, List.map_cons, List.flatten_cons] at ih ⊢
    simp only [List.length_append, ih, List.length_cons, List.length_nil]
    omega

theorem hexEncode_mem (bytes : List Nat) :
    ∀ c ∈ hexEncode bytes, c ∈ hexTable := by
  intro c hc
  simp only [hexEncode, List.mem_flatten, List.mem_map] at hc
  obtain ⟨l, ⟨b, _, hl⟩, hcl⟩ := hc
  have hlen : hexTable.length = 16 := by decide
  subst hl
  have hmem : ∀ m : Nat, hexTable.getD (m % 16) '0' ∈ hexTable := by
    intro m
    have hlt : m % 16 < hexTable.length := by
      rw [hlen]; exact Nat.mod_lt _ (by norm_num)
    rw [List.getD_eq_getElem _ _ hlt]
    exact List.getElem_mem _
  simp only [List.mem_cons, List.not_mem_nil, or_false] at hcl
  rcases hcl with h | h
  · subst h; exact hmem _
  · subst h; exact hmem _

/-- C6: for every service name derived from a path, the three canonical
forms are pure functions of the source string: `proper` is the path
segments joined by `/`, `domain` is the segments reversed and joined by
`.`, `sanitized` is the proper form with every `/` replaced by `_`, and
the segments round-trip through the proper form. -/
theorem c6_serviceName_forms (segs : List Str) (h1 : segs ≠ [])
    (h2 : ∀ s ∈ segs, '/' ∉ s) :
    (serviceNameOfSegments segs).proper = joinSep '/' segs ∧
    (serviceNameOfSegments segs).domain = joinSep '.' segs.reverse ∧
    (serviceNameOfSegments segs).sanitized = joinSep '_' segs ∧
    splitOnChar '/' (serviceNameOfSegments segs).proper = segs := by
  have hsplit := splitOnChar_joinSep '/' segs h1 h2
  refine ⟨rfl, ?_, ?_, hsplit⟩
  · show joinSep '.' (splitOnChar '/' (joinSep '/' segs)).reverse = joinSep '.' segs.reverse
    rw [hsplit]
  · show (joinSep '/' segs).map (fun c => if c = '/' then '_' else c) = joinSep '_' segs
    rw [map_joinSep]
    have hsep : (if '/' = '/' then '_' else '/') = '_' := by decide
    rw [hsep, mapSegs_eq _ _ (fun s hs => replaceSlash_of_not_mem s (h2 s hs))]

/-- Witness for C6 at the concrete path `a/b.toml` (segments `a`, `b`). -/
theorem c6_serviceName_forms_witness :
    (serviceNameOfSegments [['a'], ['b']]).domain = joinSep '.' [['b'], ['a']] ∧
    (serviceNameOfSegments [['a'], ['b']]).sanitized = joinSep '_' [['a'], ['b']] := by
  have h := c6_serviceName_forms [['a'], ['b']] (by decide) (by decide)
  exact ⟨h.2.1, h.2.2.1⟩

/-- C7: the generator conforms to the specified algorithm: `alphanumeric`
yields exactly `length` samples of `[A-Za-z0-9]`; `base64` fills `length`
random bytes, base64-encodes them and truncates to exactly `length`
characters; `hex` fills `length / 2` bytes (integer division) and
hex-encodes them into `2 * (length / 2)` hex digits. -/
theorem c7_generate_value_conforms (length : Nat) (rng : Rng) :
    (generate_value .alphanumeric length rng
        = (List.range length).map (sampleAlphanumeric rng) ∧
      (generate_value .alphanumeric length rng).length = length ∧
      ∀ c ∈ generate_value .alphanumeric length rng, c ∈ alphanumericTable) ∧
    (generate_value .base64 length rng
        = (base64Encode (fillBytes rng length)).take length ∧
      (generate_value .base64 length rng).length = length) ∧
    (generate_value .hex length rng = hexEncode (fillBytes rng (length / 2)) ∧
      (generate_value .hex length rng).length = 2 * (length / 2) ∧
      ∀ c ∈ generate_value .hex length rng, c ∈ hexTable) := by
  refine ⟨⟨rfl, ?_, ?_⟩, ⟨rfl, ?_⟩, rfl, ?_, ?_⟩
  · simp [generate_value]
  · intro c hc
    simp only [generate_value, List.mem_map] at hc
    obtain ⟨i, _, hi⟩ := hc
    subst hi
    exact sampleAlphanumeric_mem rng i
  · have hfill : (fillBytes rng length).length = length := by simp [fillBytes]
    simp only [generate_value, List.length_take, base64Encode_length, hfill]
    exact Nat.min_eq_left (le_four_mul_ceil_div_three length)
  · have hfill : (fillBytes rng (length / 2)).length = length / 2 := by simp [fillBytes]
    simp only [generate_value, hexEncode_length, hfill]
  · intro c hc
    exact hexEncode_mem _ c hc

/-! ### Container-event watcher (`src/src/deployer/docker/events.rs`) -/

/-- Container event actions recognised by the watcher; any other action
string maps to `outOfScope`. -/
inductive DockerAction
  | create
  | destroy
  | exit (code : Nat)
  | kill
  | start
  | stop
  | outOfScope
deriving Repr, DecidableEq

/-- `Action::useful`: everything except `outOfScope`. -/
def DockerAction.useful : DockerAction → Bool
  | .outOfScope => false
  | _ => true

/-- A container event: an action together with the actor container id. -/
structure DockerEvent where
  action : DockerAction
  id : String
deriving Repr, DecidableEq

/-- The watcher's `last_events` map, keyed by container id (newest binding
first, as a `HashMap` insert is modelled by shadowing). -/
abbrev LastActions := List (String × DockerAction)

/-- One iteration of the `while let` loop in `watch`
(`src/src/deployer/docker/events.rs:25-51`): skip non-useful events;
restart on a non-zero `die` whose previous recorded action was not `kill`
(or had no previous record); always record the action afterwards.  Returns
the updated map and the list of `engine.start` calls issued. -/
def processEvent (st : LastActions) (e : DockerEvent) : LastActions × List String :=
  if e.action.useful = false then (st, [])
  else
    let previous := st.lookup e.id
    let exitedNonZero := match e.action with
      | .exit code => code != 0
      | _ => false
    let restart := exitedNonZero &&
      (previous.isNone || (match previous with
        | some a => a != DockerAction.kill
        | none => false))
    ((e.id, e.action) :: st, if restart then [e.id] else [])

/-- The watcher loop over a stream of events within one tick. -/
def watchEvents (st : LastActions) : List DockerEvent → LastActions × List String
  | [] => (st, [])
  | e :: rest =>
    let r1 := processEvent st e
    let r2 := watchEvents r1.1 rest
    (r2.1, r1.2 ++ r2.2)

/-- Modelled from the spec: an unexpected exit is a `die` event with
`exit_code ≠ 0` from a container whose recorded previous action was not
`kill`. -/
def isUnexpectedExit (st : LastActions) (e : DockerEvent) : Bool :=
  match e.action with
  | .exit code => code != 0 && (st.lookup e.id != some DockerAction.kill)
  | _ => false

/-- Modelled from the spec: the `last_action` record kept by the watcher,
updated after each recognised event. -/
def specLastUpdate (st : LastActions) (e : DockerEvent) : LastActions :=
  if e.action.useful then (e.id, e.action) :: st else st

/-- Modelled from the spec: the number of restarts the watcher must issue
on an event stream — one per unexpected exit, evaluated against the
evolving `last_action` record. -/
def specRestartCount (st : LastActions) : List DockerEvent → Nat
  | [] => 0
  | e :: rest =>
    (if isUnexpectedExit st e then 1 else 0) + specRestartCount (specLastUpdate st e) rest

theorem processEvent_starts (st : LastActions) (e : DockerEvent) :
    (processEvent st e).2 = if isUnexpectedExit st e then [e.id] else [] := by
  rcases e with ⟨action, id⟩
  cases action <;>
    simp only [processEvent, isUnexpectedExit, DockerAction.useful] <;>
    try rfl
  case exit code =>
    simp only [if_neg (by simp : ¬ (true = false))]
    rcases h : (st.lookup id) with _ | a
    · simp [h]
    · simp only [h, Option.isNone_some, Bool.false_or]
      rcases eq_or_ne a DockerAction.kill with ha | ha
      · subst ha; simp
      · simp [ha]

theorem processEvent_state (st : LastActions) (e : DockerEvent) :
    (processEvent st e).1 = specLastUpdate st e := by
  rcases e with ⟨action, id⟩
  cases action <;> rfl

theorem watchEvents_count (evs : List DockerEvent) : ∀ st : LastActions,
    (watchEvents st evs).2.length = specRestartCount st evs := by
  induction evs with
  | nil => intro st; rfl
  | cons e rest ih =>
    intro st
    simp only [watchEvents, specRestartCount, List.length_append,
      processEvent_starts, processEvent_state, ih (specLastUpdate st e)]
    by_cases h : isUnexpectedExit st e = true
    · simp [h]
    · simp [h]

/-- C2: the watcher restarts a container exactly once per unexpected exit
event — `engine.start(id)` is invoked exactly for a non-zero `die` whose
recorded previous action was not `kill`, every other event at most updates
`last_action` and issues no start — and over any event stream of one tick
the number of starts equals the number of unexpected exits (no looping on
a repeatedly failing container beyond one start per event), because
`last_action` is updated after each event. -/
theorem c2_watcher_restarts_once :
    (∀ (st : LastActions) (evs : List DockerEvent),
      (watchEvents st evs).2.length = specRestartCount st evs ∧
      (watchEvents st evs).2.length ≤ evs.length) ∧
    (∀ (st : LastActions) (e : DockerEvent),
      (isUnexpectedExit st e = true → (processEvent st e).2 = [e.id]) ∧
      (isUnexpectedExit st e = false → (processEvent st e).2 = []) ∧
      (processEvent st e).1 = specLastUpdate st e) := by
  have hle : ∀ (evs : List DockerEvent) (st : LastActions),
      specRestartCount st evs ≤ evs.length := by
    intro evs
    induction evs with
    | nil => intro st; exact Nat.le_refl 0
    | cons e rest ih =>
      intro st
      simp only [specRestartCount, List.length_cons]
      have := ih (specLastUpdate st e)
      by_cases h : isUnexpectedExit st e = true
      · simp only [h, if_true]; omega
      · rw [if_neg (by simp [h])]; omega
  constructor
  · intro st evs
    refine ⟨watchEvents_count evs st, ?_⟩
    rw [watchEvents_count evs st]
    exact hle evs st
  · intro st e
    refine ⟨?_, ?_, processEvent_state st e⟩
    · intro h; rw [processEvent_starts, if_pos h]
    · intro h; rw [processEvent_starts, if_neg (by simp [h])]

/-! ### Notifier events (`src/src/notifier/events.rs`) -/

/-- Lifecycle states carried by notifications. -/
inductive NotifyState
  | inProgress
  | success
  | failure (reason : Str)
deriving Repr, DecidableEq

/-- Notifier event variants. -/
inductive NotifyEvent
  | deployment (commit : Str) (state : NotifyState)
  | serviceUpdate (name : Str) (state : NotifyState)
  | serviceDelete (name : Str) (state : NotifyState)
deriving Repr, DecidableEq

/-! ### DeleteService (`src/wafflemaker/src/processor/jobs/delete_service.rs`,
`src/src/processor/jobs/delete_service.rs`) -/

/-- Oracle for the collaborator calls a DeleteService run makes. -/
structure DeleteEnv where
  registryHas : Bool
  serviceId : Except Unit (Option String)
  deleteByNameOk : Bool
  revokeOk : Bool
  dnsOk : Bool
deriving Repr

/-- Observable side effects of a DeleteService run. -/
inductive DeleteEffect
  | notify (ev : NotifyEvent)
  | engineStop (id : String)
  | engineDeleteByName (name : Str)
  | revokeLeases (id : String)
  | dnsUnregister (domain : Str)
  | deleteDatabaseRole (role : Str)
deriving Repr, DecidableEq

/-- The failure message of the delete job's `fail!` wrapper. -/
def deleteFailMsg : Str := "an error occurred while deleting service".toList

/-- Modelled from the spec: the `fail_notify!` macro is referenced from the
crate root but its definition is not among the sources; per the failure
policy a job that hits an error "logs it, notifies the configured sinks
with a failure state, and returns". -/
def failNotifyDelete (name : ServiceName) : List DeleteEffect :=
  [.notify (.serviceDelete name.proper (.failure deleteFailMsg))]

/-- `DeleteService::run`: registry removal short-circuits to success; then
in-progress, id lookup (absent id logs and returns), stop (errors
swallowed), delete-by-name, lease revocation, DNS unregistration and a
best-effort database-role delete before the terminal success. -/
def DeleteService.run (name : ServiceName) (env : DeleteEnv) : List DeleteEffect :=
  if env.registryHas = false then
    [.notify (.serviceDelete name.proper .success)]
  else
    .notify (.serviceDelete name.proper .inProgress) ::
      (match env.serviceId with
        | .error _ => failNotifyDelete name
        | .ok none => []
        | .ok (some id) =>
          .engineStop id ::
            .engineDeleteByName name.proper ::
              (if env.deleteByNameOk = false then failNotifyDelete name
              else
                .revokeLeases id ::
                  (if env.revokeOk = false then failNotifyDelete name
                  else
                    .dnsUnregister name.domain ::
                      (if env.dnsOk = false then failNotifyDelete name
                      else
                        [.deleteDatabaseRole name.sanitized,
                          .notify (.serviceDelete name.proper .success)]))))

/-- C3 counterexample: with a registry entry present but no container id
recorded for the name, the run emits only the in-progress notification —
it does not emit `service-delete: success`, refuting the claim at this
concrete input. -/
theorem c3_counterexample :
    ¬ (DeleteEffect.notify (.serviceDelete ['a'] .success)
          ∈ DeleteService.run (ServiceName.new ['a']) ⟨true, .ok none, true, true, true⟩ ∧
        (∀ id, DeleteEffect.engineStop id
          ∉ DeleteService.run (ServiceName.new ['a']) ⟨true, .ok none, true, true, true⟩) ∧
        (∀ id, DeleteEffect.revokeLeases id
          ∉ DeleteService.run (ServiceName.new ['a']) ⟨true, .ok none, true, true, true⟩) ∧
        (∀ d, DeleteEffect.dnsUnregister d
          ∉ DeleteService.run (ServiceName.new ['a']) ⟨true, .ok none, true, true, true⟩)) := by
  intro h
  exact absurd h.1 (by decide)

/-- C3 (amended): when the service has a registry entry but the name→id
map holds no id, DeleteService emits the in-progress notification, then
logs and returns without any further notification — no success event, no
engine stop or delete, no lease revocation and no DNS unregistration. -/
theorem c3_delete_absent_id (name : ServiceName) (env : DeleteEnv)
    (hreg : env.registryHas = true) (hid : env.serviceId = .ok none) :
    DeleteService.run name env
        = [.notify (.serviceDelete name.proper .inProgress)] ∧
      DeleteEffect.notify (.serviceDelete name.proper .success)
        ∉ DeleteService.run name env ∧
      (∀ id, DeleteEffect.engineStop id ∉ DeleteService.run name env) ∧
      (∀ n, DeleteEffect.engineDeleteByName n ∉ DeleteService.run name env) ∧
      (∀ id, DeleteEffect.revokeLeases id ∉ DeleteService.run name env) ∧
      (∀ d, DeleteEffect.dnsUnregister d ∉ DeleteService.run name env) := by
  have hrun : DeleteService.run name env
      = [.notify (.serviceDelete name.proper .inProgress)] := by
    unfold DeleteService.run
    rw [hreg, hid]
    simp
  refine ⟨hrun, ?_, ?_, ?_, ?_, ?_⟩ <;> simp [hrun]

/-- Witness for C3 (amended) at a concrete input. -/
theorem c3_delete_absent_id_witness :
    DeleteService.run (ServiceName.new ['a']) ⟨true, .ok none, true, true, true⟩
      = [.notify (.serviceDelete ['a'] .inProgress)] :=
  (c3_delete_absent_id (ServiceName.new ['a']) ⟨true, .ok none, true, true, true⟩ rfl rfl).1

/-- Witness for C2 applying the theorem at a concrete stream: two
non-zero exits of the same container yield one restart each. -/
theorem c2_watcher_restarts_once_witness :
    (watchEvents [] [⟨DockerAction.exit 1, "c"⟩, ⟨DockerAction.exit 1, "c"⟩]).2.length
      = specRestartCount [] [⟨DockerAction.exit 1, "c"⟩, ⟨DockerAction.exit 1, "c"⟩] :=
  (c2_watcher_restarts_once.1 [] [⟨DockerAction.exit 1, "c"⟩, ⟨DockerAction.exit 1, "c"⟩]).1

/-- Witness for C7 at a concrete length and RNG stream. -/
theorem c7_generate_value_conforms_witness :
    (generate_value .base64 32 (fun i => i * 7)).length = 32 :=
  ((c7_generate_value_conforms 32 (fun i => i * 7)).2.1).2

/-! ### Git diff (`src/wafflemaker/src/git/diff.rs`) and PlanUpdate
(`src/src/processor/jobs/plan_update.rs`) -/

/-- The diff action attached to a changed file. -/
inductive DiffAction
  | modified
  | deleted
  | unknown
deriving Repr, DecidableEq

/-- A file entry of a commit-range diff. -/
structure DiffFile where
  action : DiffAction
  path : Str
  binary : Bool
deriving Repr, DecidableEq

/-- The final component of a path (`Path::file_name`). -/
def lastComponent (p : Str) : Str := (splitOnChar '/' p).getLastD []

/-- `Path::extension`: the part of the final component after its last dot;
`none` when there is no dot or when the only dot leads a hidden file. -/
def fileExtension (p : Str) : Option Str :=
  match splitOnChar '.' (lastComponent p) with
  | [] => none
  | [_] => none
  | first :: rest =>
    if first = [] ∧ rest.length = 1 then none else some (rest.getLastD [])

/-- A git tree as a finite map from paths to file contents. -/
abbrev Tree (α : Type) := List (Str × α)

/-- First-match association-list lookup (the `HashMap`/tree lookups used
throughout are modelled with it). -/
def lookupA {α β : Type} [DecidableEq α] (k : α) : List (α × β) → Option β
  | [] => none
  | e :: rest => if k = e.1 then some e.2 else lookupA k rest

/-- The tree-to-tree diff contract of the git worker: paths present in
`t2` whose content differs from `t1` (or are new) are `modified`; paths of
`t1` missing from `t2` are `deleted`. -/
def diffTrees {α : Type} [DecidableEq α] (t1 t2 : Tree α) : List DiffFile :=
  (t2.filter (fun e => decide (lookupA e.1 t1 ≠ some e.2))).map
      (fun e => DiffFile.mk .modified e.1 false)
    ++ (t1.filter (fun e => decide (lookupA e.1 t2 = none))).map
      (fun e => DiffFile.mk .deleted e.1 false)

theorem lookupA_eq_some_of_mem {α β : Type} [DecidableEq α]
    (t : List (α × β)) (h : (t.map Prod.fst).Nodup) :
    ∀ e ∈ t, lookupA e.1 t = some e.2 := by
  induction t with
  | nil => intro e he; cases he
  | cons x rest ih =>
    simp only [List.map_cons, List.nodup_cons] at h
    intro e he
    rcases List.mem_cons.mp he with he | he2
    · subst he; simp [lookupA]
    · have hx : ¬ e.1 = x.1 := by
        intro hh
        exact h.1 (hh ▸ List.mem_map_of_mem Prod.fst he2)
      simp only [lookupA, hx, if_false]
      exact ih h.2 e he2

theorem lookupA_ne_none_of_mem {α β : Type} [DecidableEq α]
    (t : List (α × β)) : ∀ e ∈ t, lookupA e.1 t ≠ none := by
  induction t with
  | nil => intro e he; cases he
  | cons x rest ih =>
    intro e he
    rcases List.mem_cons.mp he with he | he2
    · subst he; simp [lookupA]
    · by_cases hx : e.1 = x.1
      · simp [lookupA, hx]
      · simp only [lookupA, hx, if_false]
        exact ih e he2

/-- Diffing a tree against itself yields the empty diff. -/
theorem diffTrees_self {α : Type} [DecidableEq α] (t : Tree α)
    (h : (t.map Prod.fst).Nodup) : diffTrees t t = [] := by
  unfold diffTrees
  have h1 : t.filter (fun e => decide (lookupA e.1 t ≠ some e.2)) = [] := by
    rw [List.filter_eq_nil_iff]
    intro e he
    simp only [decide_eq_true_eq, ne_eq, Decidable.not_not]
    exact lookupA_eq_some_of_mem t h e he
  have h2 : t.filter (fun e => decide (lookupA e.1 t = none)) = [] := by
    rw [List.filter_eq_nil_iff]
    intro e he
    simp only [decide_eq_true_eq]
    exact lookupA_ne_none_of_mem t e he
  rw [h1, h2]
  rfl

/-- Observable side effects of a PlanUpdate run: notifications and child
jobs dispatched to the queue (identified by the service name computed from
the path; the parsed spec payload does not influence the control flow). -/
inductive PlanEffect
  | notify (ev : NotifyEvent)
  | dispatchUpdate (name : Str)
  | dispatchDelete (name : Str)
deriving Repr, DecidableEq

/-- The failure message of the plan job's `fail!` wrapper. -/
def planFailMsg : Str := "an error occurred while planning deployment".toList

/-- `Vec::join` with a string separator. -/
def joinWith (sep : Str) : List Str → Str
  | [] => []
  | [s] => s
  | s :: rest => s ++ sep ++ joinWith sep rest

/-- The reason attached to the terminal failure notification:
`unable to parse: ` followed by the offending paths joined by `, `. -/
def parseFailReason (failures : List Str) : Str :=
  "unable to parse: ".toList ++ joinWith ", ".toList failures

/-- The spec-file extension the loop filters for. -/
def tomlExt : Str := "toml".toList

/-- One iteration of the loop over diff entries
(`src/src/processor/jobs/plan_update.rs:64-115`): binary files, unknown
actions and non-`.toml` paths are skipped; a modified entry is parsed and
either accumulated into the failure list or dispatched as UpdateService; a
deleted entry is dispatched as DeleteService. -/
def planStep (parse : Str → Except Unit Unit) (pathToName : Str → Str)
    (acc : List Str × List PlanEffect) (diff : DiffFile) :
    List Str × List PlanEffect :=
  if diff.binary then acc
  else if diff.action = .unknown then acc
  else if fileExtension diff.path ≠ some tomlExt then acc
  else
    match diff.action with
    | .modified =>
      match parse diff.path with
      | .error _ => (acc.1 ++ [diff.path], acc.2)
      | .ok _ => (acc.1, acc.2 ++ [.dispatchUpdate (pathToName diff.path)])
    | .deleted => (acc.1, acc.2 ++ [.dispatchDelete (pathToName diff.path)])
    | .unknown => acc

/-- The fold of `planStep` over the whole diff list, from the empty
accumulator. -/
def planFold (parse : Str → Except Unit Unit) (pathToName : Str → Str)
    (files : List DiffFile) : List Str × List PlanEffect :=
  files.foldl (planStep parse pathToName) ([], [])

/-- `PlanUpdate::run` after the commit-shortening of the tracing fields:
in-progress notification, diff request (whose failure aborts with a
failure notification), the per-entry loop, and the terminal notification —
success exactly when the parse-failure list is empty. -/
def PlanUpdate.runCore (parse : Str → Except Unit Unit) (pathToName : Str → Str)
    (after : Str) (dres : Except Unit (List DiffFile)) : List PlanEffect :=
  .notify (.deployment after .inProgress) ::
    match dres with
    | .error _ => [.notify (.deployment after (.failure planFailMsg))]
    | .ok files =>
      let r := planFold parse pathToName files
      r.2 ++ [.notify (.deployment after
        (if r.1 = [] then .success else .failure (parseFailReason r.1)))]

/-- `PlanUpdate::short_before` / `short_after`: the first 8 bytes of the
commit string taken with `[..8]`, which panics (modelled by `none`) when
the string is shorter than 8 bytes. -/
def shortCommit (s : Str) : Option Str :=
  if s.length < 8 then none else some (s.take 8)

/-- The full job entry point: the `#[instrument]` attribute evaluates
`short_before()` and `short_after()` before the body runs, so a commit
string shorter than 8 bytes panics (modelled by `none`) instead of
reaching the body. -/
def PlanUpdate.run (parse : Str → Except Unit Unit) (pathToName : Str → Str)
    (before after : Str) (dres : Except Unit (List DiffFile)) :
    Option (List PlanEffect) :=
  match shortCommit before, shortCommit after with
  | some _, some _ => some (PlanUpdate.runCore parse pathToName after dres)
  | _, _ => none

theorem planStep_append (parse : Str → Except Unit Unit) (p2n : Str → Str)
    (acc : List Str × List PlanEffect) (d : DiffFile) :
    planStep parse p2n acc d
      = (acc.1 ++ (planStep parse p2n ([], []) d).1,
         acc.2 ++ (planStep parse p2n ([], []) d).2) := by
  rcases d with ⟨action, path, binary⟩
  cases binary
  · cases action
    · by_cases hext : fileExtension path = some tomlExt
      · rcases hp : parse path with _ | _ <;> simp [planStep, hext, hp]
      · simp [planStep, hext]
    · by_cases hext : fileExtension path = some tomlExt
      · simp [planStep, hext]
      · simp [planStep, hext]
    · simp [planStep]
  · simp [planStep]

theorem planFold_from (parse : Str → Except Unit Unit) (p2n : Str → Str)
    (files : List DiffFile) : ∀ acc : List Str × List PlanEffect,
    files.foldl (planStep parse p2n) acc
      = (acc.1 ++ (planFold parse p2n files).1,
         acc.2 ++ (planFold parse p2n files).2) := by
  induction files with
  | nil => intro acc; simp [planFold]
  | cons f rest ih =>
    intro acc
    show rest.foldl (planStep parse p2n) (planStep parse p2n acc f) = _
    rw [ih (planStep parse p2n acc f)]
    have hfold : planFold parse p2n (f :: rest)
        = rest.foldl (planStep parse p2n) (planStep parse p2n ([], []) f) := rfl
    rw [hfold, ih (planStep parse p2n ([], []) f)]
    rw [planStep_append parse p2n acc f]
    simp [List.append_assoc]

theorem planFold_split (parse : Str → Except Unit Unit) (p2n : Str → Str)
    (l1 l2 : List DiffFile) :
    planFold parse p2n (l1 ++ l2)
      = ((planFold parse p2n l1).1 ++ (planFold parse p2n l2).1,
         (planFold parse p2n l1).2 ++ (planFold parse p2n l2).2) := by
  show (l1 ++ l2).foldl (planStep parse p2n) ([], []) = _
  rw [List.foldl_append]
  rw [planFold_from parse p2n l2 (l1.foldl (planStep parse p2n) ([], []))]
  rfl

/-- C8: a parse failure of one modified spec file only accumulates that
path into the failure list and never aborts the remaining entries (their
failures and dispatches are unchanged), and the terminal deployment
notification is success exactly when the parse-failure list is empty,
otherwise a failure carrying the offending paths. -/
theorem c8_plan_parse_failure_isolated (parse : Str → Except Unit Unit)
    (p2n : Str → Str) :
    (∀ (l1 l2 : List DiffFile) (f : DiffFile),
      f.binary = false → f.action = .modified →
      fileExtension f.path = some tomlExt → parse f.path = .error () →
      planFold parse p2n (l1 ++ f :: l2)
        = ((planFold parse p2n l1).1 ++ f.path :: (planFold parse p2n l2).1,
           (planFold parse p2n l1).2 ++ (planFold parse p2n l2).2)) ∧
    (∀ (after : Str) (files : List DiffFile),
      (PlanUpdate.runCore parse p2n after (.ok files)).getLast?
        = some (.notify (.deployment after
            (if (planFold parse p2n files).1 = [] then .success
             else .failure (parseFailReason (planFold parse p2n files).1))))) := by
  constructor
  · intro l1 l2 f hbin hact hext hp
    rcases f with ⟨action, path, binary⟩
    simp only at hbin hact hext hp
    subst hbin; subst hact
    have hstep : planStep parse p2n ([], []) ⟨.modified, path, false⟩ = ([path], []) := by
      simp [planStep, hext, hp]
    have hcons : planFold parse p2n (⟨.modified, path, false⟩ :: l2)
        = ([path] ++ (planFold parse p2n l2).1, [] ++ (planFold parse p2n l2).2) := by
      show l2.foldl (planStep parse p2n) (planStep parse p2n ([], []) ⟨.modified, path, false⟩) = _
      rw [hstep, planFold_from parse p2n l2 ([path], [])]
    rw [planFold_split parse p2n l1 (⟨.modified, path, false⟩ :: l2), hcons]
    simp
  · intro after files
    show (PlanEffect.notify (.deployment after .inProgress) ::
        ((planFold parse p2n files).2 ++ [.notify (.deployment after
          (if (planFold parse p2n files).1 = [] then .success
           else .failure (parseFailReason (planFold parse p2n files).1)))])).getLast? = _
    rw [← List.cons_append, List.getLast?_concat]

/-- Witness for C8 at a concrete diff list where the middle entry fails to
parse: the later deletion is still dispatched and the failure path is
recorded. -/
theorem c8_plan_parse_failure_isolated_witness :
    planFold (fun p => if p = "bad.toml".toList then .error () else .ok ()) id
        ([⟨DiffAction.deleted, "ok.toml".toList, false⟩]
          ++ ⟨DiffAction.modified, "bad.toml".toList, false⟩
            :: [⟨DiffAction.deleted, "ok2.toml".toList, false⟩])
      = ((planFold (fun p => if p = "bad.toml".toList then .error () else .ok ()) id
            [⟨DiffAction.deleted, "ok.toml".toList, false⟩]).1
            ++ "bad.toml".toList
              :: (planFold (fun p => if p = "bad.toml".toList then .error () else .ok ()) id
                [⟨DiffAction.deleted, "ok2.toml".toList, false⟩]).1,
         (planFold (fun p => if p = "bad.toml".toList then .error () else .ok ()) id
            [⟨DiffAction.deleted, "ok.toml".toList, false⟩]).2
            ++ (planFold (fun p => if p = "bad.toml".toList then .error () else .ok ()) id
              [⟨DiffAction.deleted, "ok2.toml".toList, false⟩]).2) :=
  (c8_plan_parse_failure_isolated (fun p => if p = "bad.toml".toList then .error () else .ok ()) id).1
    [⟨DiffAction.deleted, "ok.toml".toList, false⟩]
    [⟨DiffAction.deleted, "ok2.toml".toList, false⟩]
    ⟨DiffAction.modified, "bad.toml".toList, false⟩
    rfl rfl (by decide) rfl

/-- C9 counterexample: with equal commits the diff is empty, yet the job
still emits the deployment in-progress and success notifications, so it
does not "emit nothing". -/
theorem c9_counterexample :
    ¬ PlanUpdate.runCore (fun _ => .ok ()) id "c0ffee00".toList
        (.ok (diffTrees ([] : Tree Nat) [])) = [] := by
  intro h
  exact absurd h (by decide)

/-- C9 (amended): for every commit `c`, PlanUpdate(c, c) enqueues no child
jobs — the diff of a tree with itself is empty, so no UpdateService or
DeleteService job is dispatched — but it does emit the deployment
in-progress and success notifications. -/
theorem c9_plan_equal_commits {α : Type} [DecidableEq α]
    (parse : Str → Except Unit Unit) (p2n : Str → Str) (c : Str) (t : Tree α)
    (h : (t.map Prod.fst).Nodup) :
    PlanUpdate.runCore parse p2n c (.ok (diffTrees t t))
        = [.notify (.deployment c .inProgress), .notify (.deployment c .success)] ∧
      (∀ n, PlanEffect.dispatchUpdate n
        ∉ PlanUpdate.runCore parse p2n c (.ok (diffTrees t t))) ∧
      (∀ n, PlanEffect.dispatchDelete n
        ∉ PlanUpdate.runCore parse p2n c (.ok (diffTrees t t))) := by
  have hrun : PlanUpdate.runCore parse p2n c (.ok (diffTrees t t))
      = [.notify (.deployment c .inProgress), .notify (.deployment c .success)] := by
    rw [diffTrees_self t h]
    rfl
  refine ⟨hrun, ?_, ?_⟩ <;> simp [hrun]

/-- Witness for C9 at a concrete one-file tree. -/
theorem c9_plan_equal_commits_witness :
    PlanUpdate.runCore (fun _ => .ok ()) id "c0ffee00".toList
        (.ok (diffTrees [(['a'], 1)] [(['a'], 1)]))
      = [.notify (.deployment "c0ffee00".toList .inProgress),
         .notify (.deployment "c0ffee00".toList .success)] :=
  (c9_plan_equal_commits (fun _ => .ok ()) id "c0ffee00".toList [(['a'], 1)] (by decide)).1

/-- C10: executing PlanUpdate slices the first 8 bytes of both commit
strings, so the job panics (modelled by `none`) whenever either commit is
shorter than 8 bytes, and only runs the body when both are at least 8
bytes long. -/
theorem c10_short_commit_panics (parse : Str → Except Unit Unit)
    (p2n : Str → Str) (before after : Str) (dres : Except Unit (List DiffFile)) :
    ((before.length < 8 ∨ after.length < 8) →
      PlanUpdate.run parse p2n before after dres = none) ∧
    (8 ≤ before.length → 8 ≤ after.length →
      PlanUpdate.run parse p2n before after dres
        = some (PlanUpdate.runCore parse p2n after dres)) := by
  constructor
  · intro h
    unfold PlanUpdate.run shortCommit
    rcases Nat.lt_or_ge before.length 8 with hb | hb
    · rw [if_pos hb]
    · have ha : after.length < 8 := by rcases h with h | h <;> omega
      rw [if_neg (by omega : ¬ before.length < 8), if_pos ha]
  · intro h1 h2
    unfold PlanUpdate.run shortCommit
    rw [if_neg (by omega), if_neg (by omega)]

/-- Witness for C10: a 3-byte `before` commit panics; an 8-byte pair runs. -/
theorem c10_short_commit_panics_witness :
    PlanUpdate.run (fun _ => .ok ()) id "abc".toList "c0ffee00".toList (.ok []) = none ∧
    PlanUpdate.run (fun _ => .ok ()) id "deadbeef".toList "c0ffee00".toList (.ok [])
      = some (PlanUpdate.runCore (fun _ => .ok ()) id "c0ffee00".toList (.ok [])) :=
  ⟨(c10_short_commit_panics (fun _ => .ok ()) id "abc".toList "c0ffee00".toList
      (.ok [])).1 (Or.inl (by decide)),
   (c10_short_commit_panics (fun _ => .ok ()) id "deadbeef".toList "c0ffee00".toList
      (.ok [])).2 (by decide) (by decide)⟩

/-! ### UpdateService (`src/src/processor/jobs/update_service.rs`,
`Deployer::create` from `src/wafflemaker/src/deployer/service.rs`) -/

/-- Secret slot variants (`src/wafflemaker/src/service/secret.rs`). -/
inductive AWSPart
  | access
  | secret
deriving Repr, DecidableEq

/-- A secret slot of a service spec. -/
inductive Secret
  | aws (role : Str) (part : AWSPart)
  | generate (format : Format) (length : Nat) (regenerate : Bool)
  | load
deriving Repr, DecidableEq

/-- The static secret bundle stored in Vault for one service, as an
association list (a `HashMap` insert is modelled by a shadowing prepend). -/
abbrev Bundle := List (Str × Str)

/-- `str::to_uppercase` (container environment keys are uppercased). -/
def uppercase (s : Str) : Str := s.map Char.toUpper

/-- `str::replace` on the byte-list model, fuelled by the input length:
non-overlapping occurrences are replaced left to right. -/
def replaceAllGo (pat rep : Str) : Nat → Str → Str
  | _, [] => []
  | 0, s => s
  | fuel + 1, c :: rest =>
    if pat ≠ [] ∧ pat.isPrefixOf (c :: rest) then
      rep ++ replaceAllGo pat rep fuel (List.drop pat.length (c :: rest))
    else c :: replaceAllGo pat rep fuel rest

/-- `str::replace`. -/
def replaceAll (pat rep s : Str) : Str := replaceAllGo pat rep s.length s

/-- The postgres connection URL: the configured template with
`\x7b\x7busername\x7d\x7d`, `\x7b\x7bpassword\x7d\x7d` and
`\x7b\x7bdatabase\x7d\x7d` substituted. -/
def pgUrl (template username password database : Str) : Str :=
  replaceAll "\x7b\x7bdatabase\x7d\x7d".toList database
    (replaceAll "\x7b\x7bpassword\x7d\x7d".toList password
      (replaceAll "\x7b\x7busername\x7d\x7d".toList username template))

/-- A parsed service spec, restricted to the fields `UpdateService::run`
reads.  The postgres dependency is carried in resolved form
`(env var name, role)` and redis as its resolved env var name. -/
structure ServiceSpec where
  image : Str
  tag : Str
  environment : List (Str × Str)
  secrets : List (Str × Secret)
  postgres : Option (Str × Str)
  redis : Option Str
  webEnabled : Bool
  webDomain : Option Str
  webPath : Option Str
deriving Repr

/-- The configuration values `UpdateService::run` reads. -/
structure Config where
  deploymentDomain : Str
  postgresTemplate : Str
  redisUrl : Str
deriving Repr

/-- The per-service sub-namespace of the name→id map: keys `id` and
`image`. -/
structure StoreEntry where
  id : Option Str
  image : Option Str
deriving Repr, DecidableEq

/-- Oracle for every collaborator call of one UpdateService run, in
program order.  `genRng` supplies the RNG stream of the i-th
`generate_value` call. -/
structure UpdateEnv where
  fetchStaticOk : Bool
  awsOk : Bool
  awsAccess : Str
  awsSecret : Str
  awsLease : Str
  dbRolesOk : Bool
  dbRoles : List Str
  dbCreateOk : Bool
  dbCredsOk : Bool
  dbUsername : Str
  dbPassword : Str
  dbLease : Str
  listOk : Bool
  pullOk : Bool
  containerOk : Bool
  newId : Str
  stopOldOk : Bool
  startNewOk : Bool
  startOldOk : Bool
  deleteNewOk : Bool
  revokeNewOk : Bool
  deleteOldOk : Bool
  revokeOldOk : Bool
  revokeOld2Ok : Bool
  ipOk : Bool
  ip : Str
  dnsOk : Bool
  putOk : Bool
  genRng : Nat → Rng

/-- Observable calls issued by an UpdateService run, in order.  Every
effect records the call being made (also when the callee then fails). -/
inductive UEffect
  | notify (ev : NotifyEvent)
  | engineCreate (image : Str) (envr : List (Str × Str))
  | engineStop (id : Str)
  | engineStart (id : Str)
  | engineDelete (id : Str)
  | registerLeases (id : Str) (leases : List Str)
  | revokeLeases (id : Str)
  | dnsRegister (domain ip : Str)
  | putStatic (name : Str) (bundle : Bundle)
deriving Repr, DecidableEq

/-- The outcome of a run: the trace of calls, the final name→id map entry
for the service, the static bundle stored in Vault after the run, and the
per-slot resolved secret values. -/
structure RunResult where
  trace : List UEffect
  store : StoreEntry
  vaultStatic : Option Bundle
  values : List (Str × Str)
deriving Repr

/-- The failure message of the update job's `fail!` wrapper. -/
def updateFailMsg : Str := "an error occurred while updating service".toList

/-- Modelled from the spec: the `fail_notify!` macro is referenced from the
crate root but its definition is not among the sources; per the failure
policy a job that hits an error "logs it, notifies the configured sinks
with a failure state, and returns". -/
def failU (name : ServiceName) (t : List UEffect) (store : StoreEntry)
    (vstatic0 : Option Bundle) (values : List (Str × Str)) : RunResult :=
  ⟨t ++ [.notify (.serviceUpdate name.proper (.failure updateFailMsg))],
    store, vstatic0, values⟩

/-- The evolving state of the secrets loop
(`src/src/processor/jobs/update_service.rs:74-117`). -/
structure SecState where
  envVars : List (Str × Str)
  values : List (Str × Str)
  bundle : Bundle
  leases : List Str
  awsCreds : Option (Str × Str)
  rngIdx : Nat
deriving Repr

/-- One iteration of the secrets loop: AWS credentials are requested once
per provider and cached; `generate` reuses the stored value unless
`regenerate` and always records the value into the bundle; `load` falls
back to the empty string.  Each resolved value is attached as an
uppercased env var. -/
def secStep (env : UpdateEnv) (st : SecState) (kv : Str × Secret) :
    Except Unit SecState :=
  match kv.2 with
  | .aws _ part =>
    match st.awsCreds with
    | some creds =>
      let value := match part with | .access => creds.1 | .secret => creds.2
      .ok { st with envVars := (uppercase kv.1, value) :: st.envVars,
                    values := (kv.1, value) :: st.values }
    | none =>
      if env.awsOk = false then .error ()
      else
        let creds := (env.awsAccess, env.awsSecret)
        let value := match part with | .access => creds.1 | .secret => creds.2
        .ok { st with awsCreds := some creds,
                      leases := st.leases ++ [env.awsLease],
                      envVars := (uppercase kv.1, value) :: st.envVars,
                      values := (kv.1, value) :: st.values }
  | .generate format length regenerate =>
    if regenerate then
      let value := generate_value format length (env.genRng st.rngIdx)
      .ok { st with rngIdx := st.rngIdx + 1,
                    bundle := (kv.1, value) :: st.bundle,
                    envVars := (uppercase kv.1, value) :: st.envVars,
                    values := (kv.1, value) :: st.values }
    else
      match lookupA kv.1 st.bundle with
      | some value =>
        .ok { st with bundle := (kv.1, value) :: st.bundle,
                      envVars := (uppercase kv.1, value) :: st.envVars,
                      values := (kv.1, value) :: st.values }
      | none =>
        let value := generate_value format length (env.genRng st.rngIdx)
        .ok { st with rngIdx := st.rngIdx + 1,
                      bundle := (kv.1, value) :: st.bundle,
                      envVars := (uppercase kv.1, value) :: st.envVars,
                      values := (kv.1, value) :: st.values }
  | .load =>
    let value := (lookupA kv.1 st.bundle).getD []
    .ok { st with envVars := (uppercase kv.1, value) :: st.envVars,
                  values := (kv.1, value) :: st.values }

/-- The fold of `secStep` over the slot list, stopping at the first
error. -/
def foldSecrets (env : UpdateEnv) (st : SecState) :
    List (Str × Secret) → Except Unit SecState
  | [] => .ok st
  | kv :: rest =>
    match secStep env st kv with
    | .error e => .error e
    | .ok st' => foldSecrets env st' rest

/-- The whole secrets loop over the spec's slots, starting from the
fetched bundle and the static environment entries. -/
def resolveSecrets (env : UpdateEnv) (staticEnv : List (Str × Str))
    (bundle0 : Bundle) (secrets : List (Str × Secret)) : Except Unit SecState :=
  foldSecrets env
    { envVars := staticEnv, values := [], bundle := bundle0,
      leases := [], awsCreds := none, rngIdx := 0 } secrets

/-- The tail of a successful swap: lease registration, the second old
revocation, DNS publication, the success notification and the static
bundle write-back (`src/src/processor/jobs/update_service.rs:193-213`). -/
def runDns (name : ServiceName) (store : StoreEntry) (vstatic0 : Option Bundle)
    (env : UpdateEnv) (t : List UEffect) (values : List (Str × Str))
    (bundle : Bundle) : RunResult :=
  if env.ipOk = false then failU name t store vstatic0 values
  else
    let t1 := t ++ [.dnsRegister name.domain env.ip]
    if env.dnsOk = false then failU name t1 store vstatic0 values
    else
      let t2 := t1 ++ [.notify (.serviceUpdate name.proper .success)]
      let t3 := t2 ++ [.putStatic name.proper bundle]
      if env.putOk = false then failU name t3 store vstatic0 values
      else ⟨t3, store, some bundle, values⟩

/-- Lease registration for the new container and the revocation of the old
container's leases before DNS publication. -/
def runTail (name : ServiceName) (store : StoreEntry) (vstatic0 : Option Bundle)
    (env : UpdateEnv) (t : List UEffect) (leases : List Str)
    (values : List (Str × Str)) (bundle : Bundle) (prev : Option Str) :
    RunResult :=
  let t1 := t ++ [.registerLeases env.newId leases]
  match prev with
  | some old =>
    let t2 := t1 ++ [.revokeLeases old]
    if env.revokeOld2Ok = false then failU name t2 store vstatic0 values
    else runDns name store vstatic0 env t2 values bundle
  | none => runDns name store vstatic0 env t1 values bundle

/-- The rolling swap (`src/src/processor/jobs/update_service.rs:148-191`
with `Deployer::create` from `src/wafflemaker/src/deployer/service.rs`):
`create` first writes the `image` key, then pulls (fallibly), then creates
the container and writes the `id` key; then the old container is stopped,
the new started, and the `(previous, started)` case split of the source is
taken. -/
def runSwap (name : ServiceName) (spec : ServiceSpec) (store0 : StoreEntry)
    (vstatic0 : Option Bundle) (env : UpdateEnv) (t : List UEffect)
    (envVars : List (Str × Str)) (leases : List Str)
    (values : List (Str × Str)) (bundle : Bundle) : RunResult :=
  if env.listOk = false then failU name t store0 vstatic0 values
  else
    let prev := store0.id
    let store1 : StoreEntry := { store0 with image := some spec.image }
    let t1 := t ++ [.engineCreate spec.image envVars]
    if env.pullOk = false then failU name t1 store1 vstatic0 values
    else if env.containerOk = false then failU name t1 store1 vstatic0 values
    else
      let newId := env.newId
      let store2 : StoreEntry := { store1 with id := some newId }
      match prev with
      | some old =>
        let t2 := t1 ++ [.engineStop old]
        if env.stopOldOk = false then failU name t2 store2 vstatic0 values
        else
          let t3 := t2 ++ [.engineStart newId]
          if env.startNewOk = false then
            let t4 := t3 ++ [.engineStart old]
            if env.startOldOk = false then failU name t4 store2 vstatic0 values
            else
              let t5 := t4 ++ [.engineDelete newId]
              if env.deleteNewOk = false then failU name t5 store2 vstatic0 values
              else
                let t6 := t5 ++ [.revokeLeases newId]
                if env.revokeNewOk = false then failU name t6 store2 vstatic0 values
                else ⟨t6, store2, vstatic0, values⟩
          else
            let t4 := t3 ++ [.engineDelete old]
            if env.deleteOldOk = false then failU name t4 store2 vstatic0 values
            else
              let t5 := t4 ++ [.revokeLeases old]
              if env.revokeOldOk = false then failU name t5 store2 vstatic0 values
              else runTail name store2 vstatic0 env t5 leases values bundle (some old)
      | none =>
        let t3 := t1 ++ [.engineStart newId]
        if env.startNewOk = false then ⟨t3, store2, vstatic0, values⟩
        else runTail name store2 vstatic0 env t3 leases values bundle none

/-- The redis dependency: a static connection value under the resolved env
name. -/
def runRedis (cfg : Config) (spec : ServiceSpec) (name : ServiceName)
    (store0 : StoreEntry) (vstatic0 : Option Bundle) (env : UpdateEnv)
    (t : List UEffect) (envVars : List (Str × Str)) (leases : List Str)
    (values : List (Str × Str)) (bundle : Bundle) : RunResult :=
  match spec.redis with
  | some rname =>
    runSwap name spec store0 vstatic0 env t
      ((uppercase rname, cfg.redisUrl) :: envVars) leases values bundle
  | none => runSwap name spec store0 vstatic0 env t envVars leases values bundle

/-- The postgres dependency (`src/src/processor/jobs/update_service.rs:119-146`):
role listing, conditional role creation, credential issue with its lease,
and the substituted connection URL. -/
def runDeps (cfg : Config) (spec : ServiceSpec) (name : ServiceName)
    (store0 : StoreEntry) (vstatic0 : Option Bundle) (env : UpdateEnv)
    (t : List UEffect) (sec : SecState) : RunResult :=
  match spec.postgres with
  | some pg =>
    if env.dbRolesOk = false then failU name t store0 vstatic0 sec.values
    else if env.dbRoles.contains pg.2 = false ∧ env.dbCreateOk = false then
      failU name t store0 vstatic0 sec.values
    else if env.dbCredsOk = false then failU name t store0 vstatic0 sec.values
    else
      runRedis cfg spec name store0 vstatic0 env t
        ((uppercase pg.1,
            pgUrl cfg.postgresTemplate env.dbUsername env.dbPassword pg.2)
          :: sec.envVars)
        (sec.leases ++ [env.dbLease]) sec.values sec.bundle
  | none =>
    runRedis cfg spec name store0 vstatic0 env t sec.envVars sec.leases
      sec.values sec.bundle

/-- The static environment entries of the create options (S1). -/
def staticEnvOf (spec : ServiceSpec) : List (Str × Str) :=
  spec.environment.foldl (fun acc kv => (uppercase kv.1, kv.2) :: acc) []

/-- `UpdateService::run`: in-progress notification, registry update (not
observable here), option building with the static environment, static
bundle fetch, the secrets loop, dependency resolution and the rolling
swap. -/
def UpdateService.run (cfg : Config) (spec : ServiceSpec) (name : ServiceName)
    (store0 : StoreEntry) (vstatic0 : Option Bundle) (env : UpdateEnv) :
    RunResult :=
  let t0 : List UEffect := [.notify (.serviceUpdate name.proper .inProgress)]
  if env.fetchStaticOk = false then failU name t0 store0 vstatic0 []
  else
    match resolveSecrets env (staticEnvOf spec) (vstatic0.getD []) spec.secrets with
    | .error _ => failU name t0 store0 vstatic0 []
    | .ok sec => runDeps cfg spec name store0 vstatic0 env t0 sec

/-- The notification subsequence of a trace. -/
def notificationsOf (tr : List UEffect) : List UEffect :=
  tr.filter (fun e => match e with | .notify _ => true | _ => false)

theorem runDeps_reduces (cfg : Config) (spec : ServiceSpec) (name : ServiceName)
    (store0 : StoreEntry) (vstatic0 : Option Bundle) (env : UpdateEnv)
    (t : List UEffect) (sec : SecState)
    (hroles : env.dbRolesOk = true) (hcreate : env.dbCreateOk = true)
    (hcreds : env.dbCredsOk = true) :
    ∃ (ev : List (Str × Str)) (ls : List Str),
      runDeps cfg spec name store0 vstatic0 env t sec
        = runSwap name spec store0 vstatic0 env t ev ls sec.values sec.bundle := by
  unfold runDeps runRedis
  rcases hp : spec.postgres with _ | pg <;> rcases hr : spec.redis with _ | rname
  · exact ⟨sec.envVars, sec.leases, by simp [hp, hr]⟩
  · exact ⟨(uppercase rname, cfg.redisUrl) :: sec.envVars, sec.leases,
      by simp [hp, hr]⟩
  · exact ⟨(uppercase pg.1,
        pgUrl cfg.postgresTemplate env.dbUsername env.dbPassword pg.2)
          :: sec.envVars,
      sec.leases ++ [env.dbLease], by simp [hp, hr, hroles, hcreate, hcreds]⟩
  · exact ⟨(uppercase rname, cfg.redisUrl)
        :: (uppercase pg.1,
          pgUrl cfg.postgresTemplate env.dbUsername env.dbPassword pg.2)
          :: sec.envVars,
      sec.leases ++ [env.dbLease], by simp [hp, hr, hroles, hcreate, hcreds]⟩

theorem runSwap_createFail (spec : ServiceSpec) (name : ServiceName)
    (store0 : StoreEntry) (vstatic0 : Option Bundle) (env : UpdateEnv)
    (ev : List (Str × Str)) (ls : List Str) (vals : List (Str × Str))
    (bnd : Bundle)
    (hlist : env.listOk = true)
    (hfail : env.pullOk = false ∨ env.containerOk = false) :
    (runSwap name spec store0 vstatic0 env
        [.notify (.serviceUpdate name.proper .inProgress)] ev ls vals bnd).trace
        = [.notify (.serviceUpdate name.proper .inProgress),
           .engineCreate spec.image ev,
           .notify (.serviceUpdate name.proper (.failure updateFailMsg))] ∧
      (runSwap name spec store0 vstatic0 env
        [.notify (.serviceUpdate name.proper .inProgress)] ev ls vals bnd).store
        = ⟨store0.id, some spec.image⟩ ∧
      (runSwap name spec store0 vstatic0 env
        [.notify (.serviceUpdate name.proper .inProgress)] ev ls vals bnd).vaultStatic
        = vstatic0 := by
  unfold runSwap
  by_cases hp : env.pullOk = false
  · simp only [hlist, hp]
    exact ⟨rfl, rfl, rfl⟩
  · have hp2 : env.pullOk = true := by
      cases h2 : env.pullOk
      · exact absurd h2 hp
      · rfl
    have hc : env.containerOk = false := by
      rcases hfail with h | h
      · exact absurd h hp
      · exact h
    simp only [hlist, hp2, hc]
    exact ⟨rfl, rfl, rfl⟩

theorem runSwap_startFail (spec : ServiceSpec) (name : ServiceName)
    (store0 : StoreEntry) (vstatic0 : Option Bundle) (env : UpdateEnv)
    (ev : List (Str × Str)) (ls : List Str) (vals : List (Str × Str))
    (bnd : Bundle) (old : Str)
    (hlist : env.listOk = true) (hprev : store0.id = some old)
    (hpull : env.pullOk = true) (hcont : env.containerOk = true)
    (hstop : env.stopOldOk = true) (hstart : env.startNewOk = false)
    (hso : env.startOldOk = true) (hdn : env.deleteNewOk = true)
    (hrn : env.revokeNewOk = true) :
    (runSwap name spec store0 vstatic0 env
        [.notify (.serviceUpdate name.proper .inProgress)] ev ls vals bnd).trace
        = [.notify (.serviceUpdate name.proper .inProgress),
           .engineCreate spec.image ev,
           .engineStop old,
           .engineStart env.newId,
           .engineStart old,
           .engineDelete env.newId,
           .revokeLeases env.newId] ∧
      (runSwap name spec store0 vstatic0 env
        [.notify (.serviceUpdate name.proper .inProgress)] ev ls vals bnd).store
        = ⟨some env.newId, some spec.image⟩ ∧
      (runSwap name spec store0 vstatic0 env
        [.notify (.serviceUpdate name.proper .inProgress)] ev ls vals bnd).vaultStatic
        = vstatic0 := by
  unfold runSwap
  simp only [hlist, hpull, hcont, hprev, hstop, hstart, hso, hdn, hrn]
  exact ⟨rfl, rfl, rfl⟩

/-- A concrete configuration for the closed instances below. -/
def sampleCfg : Config := ⟨"es".toList, "tpl".toList, "redis".toList⟩

/-- A concrete spec whose new image reference differs from the recorded
one. -/
def sampleSpec : ServiceSpec :=
  { image := "b".toList, tag := "2".toList, environment := [],
    secrets := [], postgres := none, redis := none,
    webEnabled := false, webDomain := none, webPath := none }

/-- A concrete service name. -/
def sampleName : ServiceName := ServiceName.new "svc".toList

/-- A concrete name→id map entry: a previous generation exists, with image
`a`. -/
def sampleStore : StoreEntry := ⟨some "old".toList, some "a".toList⟩

/-- A concrete oracle in which every collaborator call succeeds. -/
def sampleEnv : UpdateEnv :=
  { fetchStaticOk := true, awsOk := true, awsAccess := "ak".toList,
    awsSecret := "sk".toList, awsLease := "al".toList,
    dbRolesOk := true, dbRoles := [], dbCreateOk := true, dbCredsOk := true,
    dbUsername := "u".toList, dbPassword := "p".toList, dbLease := "dl".toList,
    listOk := true, pullOk := true, containerOk := true, newId := "new".toList,
    stopOldOk := true, startNewOk := true, startOldOk := true,
    deleteNewOk := true, revokeNewOk := true, deleteOldOk := true,
    revokeOldOk := true, revokeOld2Ok := true,
    ipOk := true, ip := "10.0.0.2".toList, dnsOk := true, putOk := true,
    genRng := fun _ _ => 0 }

/-- C1 counterexample: a previous container exists and the new image is
unpullable; the job does emit `service-update: failure` and keeps the old
`id`, but the `image` key of the name→id map has already been overwritten
with the new image by `Deployer::create`, so the map entry is not
unchanged — refuting the claim at this concrete input. -/
theorem c1_counterexample :
    ¬ (UEffect.notify (.serviceUpdate sampleName.proper (.failure updateFailMsg))
          ∈ (UpdateService.run sampleCfg sampleSpec sampleName sampleStore
              (some []) { sampleEnv with pullOk := false }).trace ∧
        (UpdateService.run sampleCfg sampleSpec sampleName sampleStore
            (some []) { sampleEnv with pullOk := false }).store.id
          = sampleStore.id ∧
        (UpdateService.run sampleCfg sampleSpec sampleName sampleStore
            (some []) { sampleEnv with pullOk := false }).store.image
          = sampleStore.image) := by
  intro h
  exact absurd h.2.2 (by decide)

/-- C1 (amended): with a previous container present, (a) when create fails
(unpullable image or failed container creation) the job emits in-progress
then failure and touches no container, the `id` key is unchanged and the
leases untouched, but the `image` key is already overwritten with the new
image; (b) when create succeeds and start fails, the old container is
restarted, the new container is deleted and its leases revoked, but no
failure notification is emitted when the recovery succeeds and both map
keys name the new (deleted) generation.  The stored static bundle is
unchanged in both cases. -/
theorem c1_failed_swap (cfg : Config) (spec : ServiceSpec) (name : ServiceName)
    (store0 : StoreEntry) (vstatic0 : Option Bundle) (env : UpdateEnv)
    (old : Str) (sec : SecState)
    (hprev : store0.id = some old)
    (hfetch : env.fetchStaticOk = true)
    (hres : resolveSecrets env (staticEnvOf spec) (vstatic0.getD [])
      spec.secrets = Except.ok sec)
    (hroles : env.dbRolesOk = true) (hcreate : env.dbCreateOk = true)
    (hcreds : env.dbCredsOk = true) (hlist : env.listOk = true) :
    ((env.pullOk = false ∨ env.containerOk = false) →
      notificationsOf (UpdateService.run cfg spec name store0 vstatic0 env).trace
          = [.notify (.serviceUpdate name.proper .inProgress),
             .notify (.serviceUpdate name.proper (.failure updateFailMsg))] ∧
        (∀ i, UEffect.engineStop i ∉ (UpdateService.run cfg spec name store0 vstatic0 env).trace) ∧
        (∀ i, UEffect.engineStart i ∉ (UpdateService.run cfg spec name store0 vstatic0 env).trace) ∧
        (∀ i, UEffect.engineDelete i ∉ (UpdateService.run cfg spec name store0 vstatic0 env).trace) ∧
        (∀ i, UEffect.revokeLeases i ∉ (UpdateService.run cfg spec name store0 vstatic0 env).trace) ∧
        (UpdateService.run cfg spec name store0 vstatic0 env).store.id = some old ∧
        (UpdateService.run cfg spec name store0 vstatic0 env).store.image = some spec.image ∧
        (UpdateService.run cfg spec name store0 vstatic0 env).vaultStatic = vstatic0) ∧
    (env.pullOk = true → env.containerOk = true → env.stopOldOk = true →
      env.startNewOk = false → env.startOldOk = true → env.deleteNewOk = true →
      env.revokeNewOk = true →
      notificationsOf (UpdateService.run cfg spec name store0 vstatic0 env).trace
          = [.notify (.serviceUpdate name.proper .inProgress)] ∧
        UEffect.engineStart old ∈ (UpdateService.run cfg spec name store0 vstatic0 env).trace ∧
        UEffect.engineDelete env.newId ∈ (UpdateService.run cfg spec name store0 vstatic0 env).trace ∧
        UEffect.revokeLeases env.newId ∈ (UpdateService.run cfg spec name store0 vstatic0 env).trace ∧
        (UpdateService.run cfg spec name store0 vstatic0 env).store = ⟨some env.newId, some spec.image⟩ ∧
        (UpdateService.run cfg spec name store0 vstatic0 env).vaultStatic = vstatic0) := by
  have hrun : UpdateService.run cfg spec name store0 vstatic0 env
      = runDeps cfg spec name store0 vstatic0 env
          [.notify (.serviceUpdate name.proper .inProgress)] sec := by
    unfold UpdateService.run
    simp only [hfetch, hres]
    rfl
  obtain ⟨ev, ls, hEL⟩ := runDeps_reduces cfg spec name store0 vstatic0 env
    [.notify (.serviceUpdate name.proper .inProgress)] sec hroles hcreate hcreds
  rw [hrun, hEL]
  constructor
  · intro hfail
    obtain ⟨ht, hs, hv⟩ := runSwap_createFail spec name store0 vstatic0 env
      ev ls sec.values sec.bundle hlist hfail
    rw [ht, hs, hv]
    refine ⟨by rfl, ?_, ?_, ?_, ?_, by simp [hprev], by simp, rfl⟩
    · intro i; simp
    · intro i; simp
    · intro i; simp
    · intro i; simp
  · intro hpull hcont hstop hstart hso hdn hrn
    obtain ⟨ht, hs, hv⟩ := runSwap_startFail spec name store0 vstatic0 env
      ev ls sec.values sec.bundle old hlist hprev hpull hcont hstop hstart hso hdn hrn
    rw [ht, hs, hv]
    refine ⟨by rfl, by simp, by simp, by simp, rfl, rfl⟩

/-- Witness for C1 (amended) at the concrete unpullable-image input. -/
theorem c1_failed_swap_witness :
    notificationsOf (UpdateService.run sampleCfg sampleSpec sampleName
        sampleStore (some []) { sampleEnv with pullOk := false }).trace
      = [.notify (.serviceUpdate sampleName.proper .inProgress),
         .notify (.serviceUpdate sampleName.proper (.failure updateFailMsg))] :=
  ((c1_failed_swap sampleCfg sampleSpec sampleName sampleStore (some [])
      { sampleEnv with pullOk := false } "old".toList
      ⟨staticEnvOf sampleSpec, [], [], [], none, 0⟩
      rfl rfl rfl rfl rfl rfl rfl).1 (Or.inl rfl)).1

/-- The claim's ordering: every success notification is preceded by a
bundle write-back. -/
def persistBeforeSuccess (nm : Str) (tr : List UEffect) : Prop :=
  ∀ l1 l2, tr = l1 ++ UEffect.notify (.serviceUpdate nm .success) :: l2 →
    ∃ n b, UEffect.putStatic n b ∈ l1

/-- The converse ordering: every bundle write-back is preceded by a success
notification. -/
def successBeforePersist (nm : Str) (tr : List UEffect) : Prop :=
  ∀ l1 l2 n b, tr = l1 ++ UEffect.putStatic n b :: l2 →
    UEffect.notify (.serviceUpdate nm .success) ∈ l1

/-- A trace with no bundle write-back at all. -/
def noPut (tr : List UEffect) : Prop :=
  ∀ n b, UEffect.putStatic n b ∈ tr → False

theorem noPut_append (a b : List UEffect) (h1 : noPut a) (h2 : noPut b) :
    noPut (a ++ b) := by
  intro n bb hmem
  rcases List.mem_append.mp hmem with h | h
  · exact h1 n bb h
  · exact h2 n bb h

theorem noPut_notify (ev : NotifyEvent) : noPut [UEffect.notify ev] := by
  intro n b hm
  simp at hm

theorem successBeforePersist_of_noPut (nm : Str) (tr : List UEffect)
    (h : noPut tr) : successBeforePersist nm tr := by
  intro l1 l2 n b heq
  exact absurd (heq ▸ (by simp : UEffect.putStatic n b ∈ l1 ++ UEffect.putStatic n b :: l2))
    (fun hm => h n b hm)

theorem split_unique {α : Type} (p : α) :
    ∀ (a b l1 l2 : List α), p ∉ a → p ∉ b →
      a ++ p :: b = l1 ++ p :: l2 → l1 = a ∧ l2 = b := by
  intro a
  induction a with
  | nil =>
    intro b l1 l2 _ hb heq
    cases l1 with
    | nil =>
      simp only [List.nil_append] at heq
      exact ⟨rfl, (List.cons.inj heq).2.symm⟩
    | cons x l1' =>
      simp only [List.nil_append, List.cons_append, List.cons.injEq] at heq
      exact absurd (heq.2 ▸ (by simp : p ∈ l1' ++ p :: l2)) hb
  | cons y a' ih =>
    intro b l1 l2 ha hb heq
    cases l1 with
    | nil =>
      simp only [List.cons_append, List.nil_append, List.cons.injEq] at heq
      exact absurd (by simp [heq.1] : p ∈ y :: a') ha
    | cons x l1' =>
      simp only [List.cons_append, List.cons.injEq] at heq
      have := ih b l1' l2 (fun hm => ha (List.mem_cons_of_mem y hm)) hb heq.2
      exact ⟨by rw [heq.1, this.1], this.2⟩

/-- A trace of the shape `pre ++ putStatic :: suf`, with the write-back
occurring nowhere else and a success notification inside `pre`, satisfies
the ordering. -/
theorem successBeforePersist_concat (nm n : Str) (b : Bundle)
    (pre suf : List UEffect) (hpre : noPut pre) (hsuf : noPut suf)
    (hmem : UEffect.notify (.serviceUpdate nm .success) ∈ pre) :
    successBeforePersist nm (pre ++ UEffect.putStatic n b :: suf) := by
  intro l1 l2 n2 b2 heq
  have hin : UEffect.putStatic n2 b2 ∈ pre ++ UEffect.putStatic n b :: suf := by
    rw [heq]; simp
  have heqp : UEffect.putStatic n2 b2 = UEffect.putStatic n b := by
    rcases List.mem_append.mp hin with h | h
    · exact absurd h (fun hm => hpre n2 b2 hm)
    · rcases List.mem_cons.mp h with h | h
      · exact h
      · exact absurd h (fun hm => hsuf n2 b2 hm)
  rw [heqp] at heq
  have := split_unique (UEffect.putStatic n b) pre suf l1 l2
    (fun hm => hpre n b hm) (fun hm => hsuf n b hm) heq
  rw [this.1]
  exact hmem

theorem runDns_sbp (name : ServiceName) (store : StoreEntry)
    (vstatic0 : Option Bundle) (env : UpdateEnv) (t : List UEffect)
    (values : List (Str × Str)) (bundle : Bundle) (hnp : noPut t) :
    successBeforePersist name.proper
      (runDns name store vstatic0 env t values bundle).trace := by
  have hdns : noPut [UEffect.dnsRegister name.domain env.ip] := by
    intro n b hm; simp at hm
  unfold runDns
  by_cases hip : env.ipOk = false
  · rw [if_pos hip]
    exact successBeforePersist_of_noPut _ _
      (noPut_append _ _ hnp (noPut_notify _))
  · rw [if_neg hip]
    by_cases hdn : env.dnsOk = false
    · rw [if_pos hdn]
      exact successBeforePersist_of_noPut _ _
        (noPut_append _ _ (noPut_append _ _ hnp hdns) (noPut_notify _))
    · rw [if_neg hdn]
      have hpre : noPut (t ++ [UEffect.dnsRegister name.domain env.ip]
          ++ [UEffect.notify (.serviceUpdate name.proper .success)]) :=
        noPut_append _ _ (noPut_append _ _ hnp hdns) (noPut_notify _)
      have hmem : UEffect.notify (.serviceUpdate name.proper .success)
          ∈ t ++ [UEffect.dnsRegister name.domain env.ip]
            ++ [UEffect.notify (.serviceUpdate name.proper .success)] := by
        simp
      by_cases hput : env.putOk = false
      · rw [if_pos hput]
        show successBeforePersist name.proper
          (((t ++ [UEffect.dnsRegister name.domain env.ip]
              ++ [UEffect.notify (.serviceUpdate name.proper .success)])
            ++ [UEffect.putStatic name.proper bundle])
            ++ [UEffect.notify (.serviceUpdate name.proper
              (.failure updateFailMsg))])
        have hshape : ((t ++ [UEffect.dnsRegister name.domain env.ip]
              ++ [UEffect.notify (.serviceUpdate name.proper .success)])
            ++ [UEffect.putStatic name.proper bundle])
            ++ [UEffect.notify (.serviceUpdate name.proper
              (.failure updateFailMsg))]
            = (t ++ [UEffect.dnsRegister name.domain env.ip]
              ++ [UEffect.notify (.serviceUpdate name.proper .success)])
              ++ UEffect.putStatic name.proper bundle
                :: [UEffect.notify (.serviceUpdate name.proper
                  (.failure updateFailMsg))] := by
          simp
        rw [hshape]
        exact successBeforePersist_concat name.proper name.proper bundle _ _
          hpre (noPut_notify _) hmem
      · rw [if_neg hput]
        show successBeforePersist name.proper
          ((t ++ [UEffect.dnsRegister name.domain env.ip]
              ++ [UEffect.notify (.serviceUpdate name.proper .success)])
            ++ [UEffect.putStatic name.proper bundle])
        have hshape : (t ++ [UEffect.dnsRegister name.domain env.ip]
              ++ [UEffect.notify (.serviceUpdate name.proper .success)])
            ++ [UEffect.putStatic name.proper bundle]
            = (t ++ [UEffect.dnsRegister name.domain env.ip]
              ++ [UEffect.notify (.serviceUpdate name.proper .success)])
              ++ UEffect.putStatic name.proper bundle :: [] := by
          simp
        rw [hshape]
        exact successBeforePersist_concat name.proper name.proper bundle _ _
          hpre (by intro n b hm; simp at hm) hmem

theorem noPut_concat (t : List UEffect) (x : UEffect) (hnp : noPut t)
    (hx : ∀ n b, x ≠ UEffect.putStatic n b) : noPut (t ++ [x]) := by
  intro n b hm
  rcases List.mem_append.mp hm with h | h
  · exact hnp n b h
  · rw [List.mem_singleton] at h
    exact hx n b h.symm

theorem runTail_sbp (name : ServiceName) (store : StoreEntry)
    (vstatic0 : Option Bundle) (env : UpdateEnv) (t : List UEffect)
    (leases : List Str) (values : List (Str × Str)) (bundle : Bundle)
    (prev : Option Str) (hnp : noPut t) :
    successBeforePersist name.proper
      (runTail name store vstatic0 env t leases values bundle prev).trace := by
  have h1 : noPut (t ++ [UEffect.registerLeases env.newId leases]) :=
    noPut_concat _ _ hnp (by intro n b; simp)
  unfold runTail
  cases prev with
  | none => exact runDns_sbp name store vstatic0 env _ values bundle h1
  | some old =>
    simp only []
    have h2 : noPut (t ++ [UEffect.registerLeases env.newId leases]
        ++ [UEffect.revokeLeases old]) :=
      noPut_concat _ _ h1 (by intro n b; simp)
    by_cases h : env.revokeOld2Ok = false
    · rw [if_pos h]
      exact successBeforePersist_of_noPut _ _
        (noPut_concat _ _ h2 (by intro n b; simp))
    · rw [if_neg h]
      exact runDns_sbp name store vstatic0 env _ values bundle h2

theorem runSwap_sbp (name : ServiceName) (spec : ServiceSpec)
    (store0 : StoreEntry) (vstatic0 : Option Bundle) (env : UpdateEnv)
    (t : List UEffect) (ev : List (Str × Str)) (ls : List Str)
    (values : List (Str × Str)) (bundle : Bundle) (hnp : noPut t) :
    successBeforePersist name.proper
      (runSwap name spec store0 vstatic0 env t ev ls values bundle).trace := by
  unfold runSwap
  by_cases hl : env.listOk = false
  · rw [if_pos hl]
    exact successBeforePersist_of_noPut _ _
      (noPut_concat _ _ hnp (by intro n b; simp))
  · rw [if_neg hl]
    simp only []
    have h1 : noPut (t ++ [UEffect.engineCreate spec.image ev]) :=
      noPut_concat _ _ hnp (by intro n b; simp)
    by_cases hpl : env.pullOk = false
    · rw [if_pos hpl]
      exact successBeforePersist_of_noPut _ _
        (noPut_concat _ _ h1 (by intro n b; simp))
    · rw [if_neg hpl]
      by_cases hco : env.containerOk = false
      · rw [if_pos hco]
        exact successBeforePersist_of_noPut _ _
          (noPut_concat _ _ h1 (by intro n b; simp))
      · rw [if_neg hco]
        rcases hid : store0.id with _ | old
        · simp only [hid]
          have h3 : noPut (t ++ [UEffect.engineCreate spec.image ev]
              ++ [UEffect.engineStart env.newId]) :=
            noPut_concat _ _ h1 (by intro n b; simp)
          by_cases hsn : env.startNewOk = false
          · rw [if_pos hsn]
            exact successBeforePersist_of_noPut _ _ h3
          · rw [if_neg hsn]
            exact runTail_sbp name _ vstatic0 env _ ls values bundle none h3
        · simp only [hid]
          have h2 : noPut (t ++ [UEffect.engineCreate spec.image ev]
              ++ [UEffect.engineStop old]) :=
            noPut_concat _ _ h1 (by intro n b; simp)
          by_cases hso : env.stopOldOk = false
          · rw [if_pos hso]
            exact successBeforePersist_of_noPut _ _
              (noPut_concat _ _ h2 (by intro n b; simp))
          · rw [if_neg hso]
            have h3 : noPut (t ++ [UEffect.engineCreate spec.image ev]
                ++ [UEffect.engineStop old] ++ [UEffect.engineStart env.newId]) :=
              noPut_concat _ _ h2 (by intro n b; simp)
            by_cases hsn : env.startNewOk = false
            · rw [if_pos hsn]
              have h4 : noPut (t ++ [UEffect.engineCreate spec.image ev]
                  ++ [UEffect.engineStop old] ++ [UEffect.engineStart env.newId]
                  ++ [UEffect.engineStart old]) :=
                noPut_concat _ _ h3 (by intro n b; simp)
              by_cases hsold : env.startOldOk = false
              · rw [if_pos hsold]
                exact successBeforePersist_of_noPut _ _
                  (noPut_concat _ _ h4 (by intro n b; simp))
              · rw [if_neg hsold]
                have h5 : noPut (t ++ [UEffect.engineCreate spec.image ev]
                    ++ [UEffect.engineStop old] ++ [UEffect.engineStart env.newId]
                    ++ [UEffect.engineStart old]
                    ++ [UEffect.engineDelete env.newId]) :=
                  noPut_concat _ _ h4 (by intro n b; simp)
                by_cases hdn : env.deleteNewOk = false
                · rw [if_pos hdn]
                  exact successBeforePersist_of_noPut _ _
                    (noPut_concat _ _ h5 (by intro n b; simp))
                · rw [if_neg hdn]
                  have h6 : noPut (t ++ [UEffect.engineCreate spec.image ev]
                      ++ [UEffect.engineStop old] ++ [UEffect.engineStart env.newId]
                      ++ [UEffect.engineStart old]
                      ++ [UEffect.engineDelete env.newId]
                      ++ [UEffect.revokeLeases env.newId]) :=
                    noPut_concat _ _ h5 (by intro n b; simp)
                  by_cases hrn : env.revokeNewOk = false
                  · rw [if_pos hrn]
                    exact successBeforePersist_of_noPut _ _
                      (noPut_concat _ _ h6 (by intro n b; simp))
                  · rw [if_neg hrn]
                    exact successBeforePersist_of_noPut _ _ h6
            · rw [if_neg hsn]
              have h4 : noPut (t ++ [UEffect.engineCreate spec.image ev]
                  ++ [UEffect.engineStop old] ++ [UEffect.engineStart env.newId]
                  ++ [UEffect.engineDelete old]) :=
                noPut_concat _ _ h3 (by intro n b; simp)
              by_cases hdo : env.deleteOldOk = false
              · rw [if_pos hdo]
                exact successBeforePersist_of_noPut _ _
                  (noPut_concat _ _ h4 (by intro n b; simp))
              · rw [if_neg hdo]
                have h5 : noPut (t ++ [UEffect.engineCreate spec.image ev]
                    ++ [UEffect.engineStop old] ++ [UEffect.engineStart env.newId]
                    ++ [UEffect.engineDelete old]
                    ++ [UEffect.revokeLeases old]) :=
                  noPut_concat _ _ h4 (by intro n b; simp)
                by_cases hro : env.revokeOldOk = false
                · rw [if_pos hro]
                  exact successBeforePersist_of_noPut _ _
                    (noPut_concat _ _ h5 (by intro n b; simp))
                · rw [if_neg hro]
                  exact runTail_sbp name _ vstatic0 env _ ls values bundle
                    (some old) h5

theorem runDeps_sbp (cfg : Config) (spec : ServiceSpec) (name : ServiceName)
    (store0 : StoreEntry) (vstatic0 : Option Bundle) (env : UpdateEnv)
    (t : List UEffect) (sec : SecState) (hnp : noPut t) :
    successBeforePersist name.proper
      (runDeps cfg spec name store0 vstatic0 env t sec).trace := by
  unfold runDeps runRedis
  rcases hp : spec.postgres with _ | pg
  · rcases hr : spec.redis with _ | rname
    · exact runSwap_sbp name spec store0 vstatic0 env t _ _ _ _ hnp
    · exact runSwap_sbp name spec store0 vstatic0 env t _ _ _ _ hnp
  · simp only []
    have hfail : successBeforePersist name.proper
        (failU name t store0 vstatic0 sec.values).trace :=
      successBeforePersist_of_noPut _ _
        (noPut_concat _ _ hnp (by intro n b; simp))
    by_cases h1 : env.dbRolesOk = false
    · rw [if_pos h1]
      exact hfail
    · rw [if_neg h1]
      by_cases h2 : env.dbRoles.contains pg.2 = false ∧ env.dbCreateOk = false
      · rw [if_pos h2]
        exact hfail
      · rw [if_neg h2]
        by_cases h3 : env.dbCredsOk = false
        · rw [if_pos h3]
          exact hfail
        · rw [if_neg h3]
          rcases spec.redis with _ | rname
          · exact runSwap_sbp name spec store0 vstatic0 env t _ _ _ _ hnp
          · exact runSwap_sbp name spec store0 vstatic0 env t _ _ _ _ hnp

/-- C4 counterexample: in a fully successful run the success notification
is emitted strictly before the bundle write-back, so "persist before
success" fails at this concrete input. -/
theorem c4_counterexample :
    ¬ persistBeforeSuccess sampleName.proper
        (UpdateService.run sampleCfg sampleSpec sampleName sampleStore
          (some []) sampleEnv).trace := by
  intro h
  obtain ⟨n, b, hmem⟩ := h
    [.notify (.serviceUpdate "svc".toList .inProgress),
     .engineCreate "b".toList [],
     .engineStop "old".toList,
     .engineStart "new".toList,
     .engineDelete "old".toList,
     .revokeLeases "old".toList,
     .registerLeases "new".toList [],
     .revokeLeases "old".toList,
     .dnsRegister "svc".toList "10.0.0.2".toList]
    [.putStatic "svc".toList []]
    (by decide)
  simp at hmem

/-- C4 (amended): within every UpdateService run the bundle write-back is
performed strictly after the success notification — wherever `put_static`
occurs in the trace, a `service-update: success` notification precedes
it. -/
theorem c4_success_after_notification (cfg : Config) (spec : ServiceSpec)
    (name : ServiceName) (store0 : StoreEntry) (vstatic0 : Option Bundle)
    (env : UpdateEnv) :
    successBeforePersist name.proper
      (UpdateService.run cfg spec name store0 vstatic0 env).trace := by
  have h0 : noPut [UEffect.notify (.serviceUpdate name.proper .inProgress)] :=
    noPut_notify _
  unfold UpdateService.run
  simp only []
  by_cases hf : env.fetchStaticOk = false
  · rw [if_pos hf]
    exact successBeforePersist_of_noPut _ _
      (noPut_concat _ _ h0 (by intro n b; simp))
  · rw [if_neg hf]
    rcases hres : resolveSecrets env (staticEnvOf spec) (vstatic0.getD [])
        spec.secrets with e | sec
    · simp only [hres]
      exact successBeforePersist_of_noPut _ _
        (noPut_concat _ _ h0 (by intro n b; simp))
    · simp only [hres]
      exact runDeps_sbp cfg spec name store0 vstatic0 env _ sec h0

/-- Witness for C4 (amended) at the concrete all-success input. -/
theorem c4_success_after_notification_witness :
    successBeforePersist sampleName.proper
      (UpdateService.run sampleCfg sampleSpec sampleName sampleStore
        (some []) sampleEnv).trace :=
  c4_success_after_notification sampleCfg sampleSpec sampleName sampleStore
    (some []) sampleEnv

theorem lookupA_cons_ne {α β : Type} [DecidableEq α] (k k2 : α) (v : β)
    (rest : List (α × β)) (h : ¬ k = k2) :
    lookupA k ((k2, v) :: rest) = lookupA k rest := by
  simp [lookupA, h]

theorem secStep_ok (env : UpdateEnv) (haws : env.awsOk = true)
    (st : SecState) (kv : Str × Secret) :
    ∃ st', secStep env st kv = .ok st' := by
  rcases h : secStep env st kv with e | st'
  · exfalso
    rcases kv with ⟨k, sk⟩
    rcases sk with ⟨role, part⟩ | ⟨fmt, len, reg⟩ | _
    · rcases hc : st.awsCreds with _ | creds
      · simp only [secStep, hc] at h
        rw [if_neg (by simp [haws])] at h
        cases h
      · simp only [secStep, hc] at h
        cases h
    · rcases reg
      · rcases hb : lookupA k st.bundle with _ | v
        · simp only [secStep, hb] at h
          cases h
        · simp only [secStep, hb] at h
          cases h
      · simp only [secStep] at h
        cases h
    · simp only [secStep] at h
      cases h
  · exact ⟨st', rfl⟩

theorem foldSecrets_total (env : UpdateEnv) (haws : env.awsOk = true) :
    ∀ (secrets : List (Str × Secret)) (st : SecState),
      ∃ sec, foldSecrets env st secrets = .ok sec := by
  intro secrets
  induction secrets with
  | nil => intro st; exact ⟨st, rfl⟩
  | cons kv rest ih =>
    intro st
    obtain ⟨st', h1⟩ := secStep_ok env haws st kv
    obtain ⟨sec, h2⟩ := ih st'
    refine ⟨sec, ?_⟩
    unfold foldSecrets
    rw [h1]
    exact h2

theorem secStep_preserves (env : UpdateEnv) (st : SecState)
    (kv : Str × Secret) (k : Str) (hne : ¬ kv.1 = k) (st' : SecState)
    (h : secStep env st kv = .ok st') :
    lookupA k st'.bundle = lookupA k st.bundle ∧
      lookupA k st'.values = lookupA k st.values := by
  rcases kv with ⟨k2, sk⟩
  simp only at hne
  have hkk : ¬ k = k2 := fun hh => hne hh.symm
  rcases sk with ⟨role, part⟩ | ⟨fmt, len, reg⟩ | _
  · rcases hc : st.awsCreds with _ | creds
    · simp only [secStep, hc] at h
      by_cases ha : env.awsOk = false
      · rw [if_pos ha] at h
        cases h
      · rw [if_neg ha] at h
        injection h with h2
        subst h2
        exact ⟨rfl, lookupA_cons_ne k k2 _ _ hkk⟩
    · simp only [secStep, hc] at h
      injection h with h2
      subst h2
      exact ⟨rfl, lookupA_cons_ne k k2 _ _ hkk⟩
  · rcases reg
    · rcases hb : lookupA k2 st.bundle with _ | v
      · simp only [secStep, hb] at h
        injection h with h2
        subst h2
        exact ⟨lookupA_cons_ne k k2 _ _ hkk, lookupA_cons_ne k k2 _ _ hkk⟩
      · simp only [secStep, hb] at h
        injection h with h2
        subst h2
        exact ⟨lookupA_cons_ne k k2 _ _ hkk, lookupA_cons_ne k k2 _ _ hkk⟩
    · simp only [secStep] at h
      injection h with h2
      subst h2
      exact ⟨lookupA_cons_ne k k2 _ _ hkk, lookupA_cons_ne k k2 _ _ hkk⟩
  · simp only [secStep] at h
    injection h with h2
    subst h2
    exact ⟨rfl, lookupA_cons_ne k k2 _ _ hkk⟩

theorem foldSecrets_preserves (env : UpdateEnv) (k : Str) :
    ∀ (secrets : List (Str × Secret)) (st sec : SecState),
      (∀ e ∈ secrets, ¬ e.1 = k) → foldSecrets env st secrets = .ok sec →
      lookupA k sec.bundle = lookupA k st.bundle ∧
        lookupA k sec.values = lookupA k st.values := by
  intro secrets
  induction secrets with
  | nil =>
    intro st sec _ h
    simp only [foldSecrets, Except.ok.injEq] at h
    subst h
    exact ⟨rfl, rfl⟩
  | cons kv rest ih =>
    intro st sec hk h
    unfold foldSecrets at h
    rcases hstep : secStep env st kv with e | st'
    · rw [hstep] at h
      cases h
    · rw [hstep] at h
      have h1 := secStep_preserves env st kv k (hk kv (by simp)) st' hstep
      have h2 := ih st' sec (fun e he => hk e (List.mem_cons_of_mem kv he)) h
      exact ⟨h2.1.trans h1.1, h2.2.trans h1.2⟩

theorem foldSecrets_append (env : UpdateEnv) :
    ∀ (l1 l2 : List (Str × Secret)) (st : SecState),
      foldSecrets env st (l1 ++ l2)
        = (match foldSecrets env st l1 with
            | .error e => .error e
            | .ok st' => foldSecrets env st' l2) := by
  intro l1
  induction l1 with
  | nil => intro l2 st; rfl
  | cons kv rest ih =>
    intro l2 st
    simp only [List.cons_append, foldSecrets]
    rcases hstep : secStep env st kv with e | st'
    · rfl
    · exact ih l2 st'

/-- Every Vault/engine/DNS call of the success path reports success. -/
def allOk (env : UpdateEnv) : Prop :=
  env.fetchStaticOk = true ∧ env.awsOk = true ∧ env.dbRolesOk = true ∧
  env.dbCreateOk = true ∧ env.dbCredsOk = true ∧ env.listOk = true ∧
  env.pullOk = true ∧ env.containerOk = true ∧ env.stopOldOk = true ∧
  env.startNewOk = true ∧ env.deleteOldOk = true ∧ env.revokeOldOk = true ∧
  env.revokeOld2Ok = true ∧ env.ipOk = true ∧ env.dnsOk = true ∧
  env.putOk = true

theorem resolveSecrets_generate (env : UpdateEnv) (haws : env.awsOk = true)
    (staticEnv : List (Str × Str)) (bundle0 : Bundle)
    (pre post : List (Str × Secret)) (k : Str) (fmt : Format) (len : Nat)
    (hpre : ∀ e ∈ pre, ¬ e.1 = k) (hpost : ∀ e ∈ post, ¬ e.1 = k) :
    ∃ sec v,
      resolveSecrets env staticEnv bundle0
          (pre ++ (k, .generate fmt len false) :: post) = .ok sec ∧
        lookupA k sec.values = some v ∧
        lookupA k sec.bundle = some v ∧
        (∀ v0, lookupA k bundle0 = some v0 → v = v0) := by
  unfold resolveSecrets
  obtain ⟨st1, h1⟩ := foldSecrets_total env haws pre
    { envVars := staticEnv, values := [], bundle := bundle0,
      leases := [], awsCreds := none, rngIdx := 0 }
  have hp1 := foldSecrets_preserves env k pre _ st1 hpre h1
  rw [foldSecrets_append env pre _ _, h1]
  rcases hb : lookupA k st1.bundle with _ | v
  · have hstep : secStep env st1 (k, .generate fmt len false)
        = .ok { st1 with
                rngIdx := st1.rngIdx + 1,
                bundle := (k, generate_value fmt len (env.genRng st1.rngIdx))
                  :: st1.bundle,
                envVars := (uppercase k,
                  generate_value fmt len (env.genRng st1.rngIdx)) :: st1.envVars,
                values := (k, generate_value fmt len (env.genRng st1.rngIdx))
                  :: st1.values } := by
      simp [secStep, hb]
    obtain ⟨sec, h3⟩ := foldSecrets_total env haws post _
    have hp3 := foldSecrets_preserves env k post _ sec hpost h3
    refine ⟨sec, generate_value fmt len (env.genRng st1.rngIdx), ?_, ?_, ?_, ?_⟩
    · show foldSecrets env st1 ((k, .generate fmt len false) :: post) = .ok sec
      unfold foldSecrets
      rw [hstep]
      exact h3
    · rw [hp3.2]
      simp [lookupA]
    · rw [hp3.1]
      simp [lookupA]
    · intro v0 hv0
      rw [hp1.1] at hb
      simp only at hb
      rw [hb] at hv0
      cases hv0
  · have hstep : secStep env st1 (k, .generate fmt len false)
        = .ok { st1 with
                bundle := (k, v) :: st1.bundle,
                envVars := (uppercase k, v) :: st1.envVars,
                values := (k, v) :: st1.values } := by
      simp [secStep, hb]
    obtain ⟨sec, h3⟩ := foldSecrets_total env haws post _
    have hp3 := foldSecrets_preserves env k post _ sec hpost h3
    refine ⟨sec, v, ?_, ?_, ?_, ?_⟩
    · show foldSecrets env st1 ((k, .generate fmt len false) :: post) = .ok sec
      unfold foldSecrets
      rw [hstep]
      exact h3
    · rw [hp3.2]
      simp [lookupA]
    · rw [hp3.1]
      simp [lookupA]
    · intro v0 hv0
      rw [hp1.1] at hb
      simp only at hb
      rw [hb] at hv0
      injection hv0

theorem runDns_shape (name : ServiceName) (store : StoreEntry)
    (vstatic0 : Option Bundle) (env : UpdateEnv) (t : List UEffect)
    (values : List (Str × Str)) (bundle : Bundle)
    (hip : env.ipOk = true) (hdns : env.dnsOk = true)
    (hput : env.putOk = true) :
    (runDns name store vstatic0 env t values bundle).vaultStatic
        = some bundle ∧
      (runDns name store vstatic0 env t values bundle).values = values := by
  unfold runDns
  simp only [hip, hdns, hput]
  exact ⟨rfl, rfl⟩

theorem runTail_shape (name : ServiceName) (store : StoreEntry)
    (vstatic0 : Option Bundle) (env : UpdateEnv) (t : List UEffect)
    (leases : List Str) (values : List (Str × Str)) (bundle : Bundle)
    (prev : Option Str)
    (hro2 : env.revokeOld2Ok = true) (hip : env.ipOk = true)
    (hdns : env.dnsOk = true) (hput : env.putOk = true) :
    (runTail name store vstatic0 env t leases values bundle prev).vaultStatic
        = some bundle ∧
      (runTail name store vstatic0 env t leases values bundle prev).values
        = values := by
  unfold runTail
  cases prev with
  | none => exact runDns_shape name store vstatic0 env _ values bundle hip hdns hput
  | some old =>
    simp only [hro2]
    exact runDns_shape name store vstatic0 env _ values bundle hip hdns hput

theorem runSwap_shape (name : ServiceName) (spec : ServiceSpec)
    (store0 : StoreEntry) (vstatic0 : Option Bundle) (env : UpdateEnv)
    (t : List UEffect) (ev : List (Str × Str)) (ls : List Str)
    (values : List (Str × Str)) (bundle : Bundle)
    (hlist : env.listOk = true) (hpull : env.pullOk = true)
    (hcont : env.containerOk = true) (hstop : env.stopOldOk = true)
    (hstart : env.startNewOk = true) (hdo : env.deleteOldOk = true)
    (hro : env.revokeOldOk = true) (hro2 : env.revokeOld2Ok = true)
    (hip : env.ipOk = true) (hdns : env.dnsOk = true)
    (hput : env.putOk = true) :
    (runSwap name spec store0 vstatic0 env t ev ls values bundle).vaultStatic
        = some bundle ∧
      (runSwap name spec store0 vstatic0 env t ev ls values bundle).values
        = values := by
  unfold runSwap
  simp only [hlist, hpull, hcont, hstop, hstart, hdo, hro]
  rcases hid : store0.id with _ | old
  · simp only [hid]
    exact runTail_shape name _ vstatic0 env _ ls values bundle none
      hro2 hip hdns hput
  · simp only [hid]
    exact runTail_shape name _ vstatic0 env _ ls values bundle (some old)
      hro2 hip hdns hput

theorem runDeps_shape (cfg : Config) (spec : ServiceSpec) (name : ServiceName)
    (store0 : StoreEntry) (vstatic0 : Option Bundle) (env : UpdateEnv)
    (t : List UEffect) (sec : SecState) (hall : allOk env) :
    (runDeps cfg spec name store0 vstatic0 env t sec).vaultStatic
        = some sec.bundle ∧
      (runDeps cfg spec name store0 vstatic0 env t sec).values
        = sec.values := by
  obtain ⟨hf, haws, hr1, hr2, hr3, hl, hp, hc, hs, hsn, hdo2, hro, hro2,
    hip, hdns, hput⟩ := hall
  unfold runDeps runRedis
  rcases hpg : spec.postgres with _ | pg
  · rcases hr : spec.redis with _ | rname
    · exact runSwap_shape name spec store0 vstatic0 env t _ _ _ _
        hl hp hc hs hsn hdo2 hro hro2 hip hdns hput
    · exact runSwap_shape name spec store0 vstatic0 env t _ _ _ _
        hl hp hc hs hsn hdo2 hro hro2 hip hdns hput
  · simp only []
    rw [if_neg (by simp [hr1]), if_neg (by simp [hr2]), if_neg (by simp [hr3])]
    rcases hr : spec.redis with _ | rname
    · exact runSwap_shape name spec store0 vstatic0 env t _ _ _ _
        hl hp hc hs hsn hdo2 hro hro2 hip hdns hput
    · exact runSwap_shape name spec store0 vstatic0 env t _ _ _ _
        hl hp hc hs hsn hdo2 hro hro2 hip hdns hput

theorem run_shape (cfg : Config) (spec : ServiceSpec) (name : ServiceName)
    (store0 : StoreEntry) (vstatic0 : Option Bundle) (env : UpdateEnv)
    (sec : SecState) (hall : allOk env)
    (hres : resolveSecrets env (staticEnvOf spec) (vstatic0.getD [])
      spec.secrets = .ok sec) :
    (UpdateService.run cfg spec name store0 vstatic0 env).vaultStatic
        = some sec.bundle ∧
      (UpdateService.run cfg spec name store0 vstatic0 env).values
        = sec.values := by
  unfold UpdateService.run
  rw [if_neg (by simp [hall.1])]
  simp only [hres]
  exact runDeps_shape cfg spec name store0 vstatic0 env _ sec hall

/-- A concrete spec with a single `generate` slot (`hex`, length 4,
`regenerate = false`). -/
def sampleSpecGen : ServiceSpec :=
  { sampleSpec with
    secrets := [("tok".toList, Secret.generate .hex 4 false)] }

/-- C5: a `generate` slot with `regenerate = false` reuses the value
already present in the stored bundle and otherwise generates a fresh one,
recording it in the bundle to write back; with `regenerate = true` it
always generates and records.  Consequently, across two fully successful
UpdateService runs on the same name, the value the second run produces for
such a slot equals the value the first run produced and persisted. -/
theorem c5_generate_reuse :
    (∀ (env : UpdateEnv) (st : SecState) (k : Str) (fmt : Format) (len : Nat),
      (∀ v, lookupA k st.bundle = some v →
        secStep env st (k, .generate fmt len false)
          = .ok { st with
                  bundle := (k, v) :: st.bundle,
                  envVars := (uppercase k, v) :: st.envVars,
                  values := (k, v) :: st.values }) ∧
      (lookupA k st.bundle = none →
        secStep env st (k, .generate fmt len false)
          = .ok { st with
                  rngIdx := st.rngIdx + 1,
                  bundle := (k, generate_value fmt len (env.genRng st.rngIdx))
                    :: st.bundle,
                  envVars := (uppercase k,
                    generate_value fmt len (env.genRng st.rngIdx)) :: st.envVars,
                  values := (k, generate_value fmt len (env.genRng st.rngIdx))
                    :: st.values }) ∧
      (secStep env st (k, .generate fmt len true)
          = .ok { st with
                  rngIdx := st.rngIdx + 1,
                  bundle := (k, generate_value fmt len (env.genRng st.rngIdx))
                    :: st.bundle,
                  envVars := (uppercase k,
                    generate_value fmt len (env.genRng st.rngIdx)) :: st.envVars,
                  values := (k, generate_value fmt len (env.genRng st.rngIdx))
                    :: st.values })) ∧
    (∀ (cfg : Config) (spec : ServiceSpec) (name : ServiceName)
        (store0 store1 : StoreEntry) (vstatic0 : Option Bundle)
        (env1 env2 : UpdateEnv) (pre post : List (Str × Secret)) (k : Str)
        (fmt : Format) (len : Nat),
      allOk env1 → allOk env2 →
      spec.secrets = pre ++ (k, .generate fmt len false) :: post →
      (∀ e ∈ pre, ¬ e.1 = k) → (∀ e ∈ post, ¬ e.1 = k) →
      ∃ v,
        lookupA k (UpdateService.run cfg spec name store0 vstatic0 env1).values
            = some v ∧
          lookupA k
            (((UpdateService.run cfg spec name store0 vstatic0 env1).vaultStatic).getD [])
            = some v ∧
          lookupA k (UpdateService.run cfg spec name store1
              (UpdateService.run cfg spec name store0 vstatic0 env1).vaultStatic
              env2).values
            = some v) := by
  constructor
  · intro env st k fmt len
    refine ⟨?_, ?_, ?_⟩
    · intro v hv
      simp [secStep, hv]
    · intro hv
      simp [secStep, hv]
    · simp [secStep]
  · intro cfg spec name store0 store1 vstatic0 env1 env2 pre post k fmt len
      hall1 hall2 hsec hpre hpost
    obtain ⟨sec1, v, hres1, hval1, hbun1, _⟩ := resolveSecrets_generate env1
      hall1.2.1 (staticEnvOf spec) (vstatic0.getD []) pre post k fmt len
      hpre hpost
    rw [← hsec] at hres1
    have hshape1 := run_shape cfg spec name store0 vstatic0 env1 sec1
      hall1 hres1
    obtain ⟨sec2, v2, hres2, hval2, hbun2, hv2⟩ := resolveSecrets_generate env2
      hall2.2.1 (staticEnvOf spec) sec1.bundle pre post k fmt len hpre hpost
    have hv2v : v2 = v := hv2 v hbun1
    rw [← hsec] at hres2
    have hres2b : resolveSecrets env2 (staticEnvOf spec)
        (((UpdateService.run cfg spec name store0 vstatic0 env1).vaultStatic).getD [])
        spec.secrets = .ok sec2 := by
      rw [hshape1.1]
      exact hres2
    have hshape2 := run_shape cfg spec name store1
      (UpdateService.run cfg spec name store0 vstatic0 env1).vaultStatic
      env2 sec2 hall2 hres2b
    refine ⟨v, ?_, ?_, ?_⟩
    · rw [hshape1.2]
      exact hval1
    · rw [hshape1.1]
      exact hbun1
    · rw [hshape2.2, ← hv2v]
      exact hval2

/-- Witness for C5 at a concrete one-slot spec: two successful runs agree
on the slot's value. -/
theorem c5_generate_reuse_witness :
    ∃ v,
      lookupA "tok".toList (UpdateService.run sampleCfg sampleSpecGen
          sampleName sampleStore (some []) sampleEnv).values = some v ∧
        lookupA "tok".toList
          (((UpdateService.run sampleCfg sampleSpecGen sampleName sampleStore
            (some []) sampleEnv).vaultStatic).getD []) = some v ∧
        lookupA "tok".toList (UpdateService.run sampleCfg sampleSpecGen
            sampleName sampleStore
            (UpdateService.run sampleCfg sampleSpecGen sampleName sampleStore
              (some []) sampleEnv).vaultStatic
            sampleEnv).values = some v :=
  c5_generate_reuse.2 sampleCfg sampleSpecGen sampleName sampleStore
    sampleStore (some []) sampleEnv sampleEnv [] []
    "tok".toList .hex 4
    ⟨rfl, rfl, rfl, rfl, rfl, rfl, rfl, rfl, rfl, rfl, rfl, rfl, rfl, rfl,
      rfl, rfl⟩
    ⟨rfl, rfl, rfl, rfl, rfl, rfl, rfl, rfl, rfl, rfl, rfl, rfl, rfl, rfl,
      rfl, rfl⟩
    rfl (by intro e he; cases he) (by intro e he; cases he)

end Wafflemaker
